import Mathlib

/-!
# Tangled cookies & consent — verification development

Shallow embedding of the two JavaScript source files of the Tangled
repository:

* `src/unnamed/part_000`  — "Tangled Cookies & Consent Utilities"
  (namespace `Tangled` below), and
* `src/tangled website/tangled-consent.js` — "Tangled Consent & Preference
  Utilities" (namespace `TangledConsent` below).

JavaScript strings are embedded as `List Char`; the browser cookie jar is an
association list of (encoded name, encoded value) pairs, together with an
explicit log of the strings assigned to `document.cookie` (the only effect
these files perform on the jar).  `Math.random()` is modelled as a rational
number `rnum / rden` in `[0, 1)`, passed in as two naturals, and `Date.now()`
as an explicit integer argument `now` (epoch milliseconds).

All definitions are structural recursions, so every function evaluates by
kernel reduction (`decide` / `rfl`).
-/

/-- Characters of a Lean string literal, used to write JavaScript string
literals as `List Char`. -/
def jstr (s : String) : List Char := s.data

/-- A JavaScript value as far as these files observe it: `null`, `undefined`,
or a string.  (`assignAB` returns `null` without consent and can return
`undefined` for an empty variant list; everything else here is a string.) -/
inductive JsVal where
  | null
  | undef
  | str (s : List Char)
deriving Repr, DecidableEq

/-- The JS `String(v)` coercion on the values above:
`String(null) = "null"`, `String(undefined) = "undefined"`. -/
def JsVal.toChars : JsVal → List Char
  | .null => jstr "null"
  | .undef => jstr "undefined"
  | .str s => s

/-- The JS error raised by evaluating an unbound global such as `document`
in a non-browser environment. -/
inductive JsError where
  | referenceError
deriving Repr, DecidableEq

/-- Model of `String.prototype.split(sep)` for a one-character separator:
splits on every occurrence; `"".split(sep)` is `[""]`. -/
def splitOnChar (sep : Char) : List Char → List (List Char)
  | [] => [[]]
  | c :: rest =>
    match splitOnChar sep rest with
    | [] => [[]]
    | h :: t => if c = sep then [] :: h :: t else (c :: h) :: t

/-- Model of `String.prototype.trim()`: strips leading and trailing
whitespace.  (JS trims a slightly larger whitespace class than
`Char.isWhitespace`; no cookie string in this development contains the
difference.) -/
def trimList (l : List Char) : List Char :=
  ((l.dropWhile Char.isWhitespace).reverse.dropWhile Char.isWhitespace).reverse

/-- Model of `p.startsWith(target)`: `beginsWith target p` is true when
`target` is an initial segment of `p`. -/
def beginsWith : List Char → List Char → Bool
  | [], _ => true
  | _ :: _, [] => false
  | c :: t, d :: p => c == d && beginsWith t p

/-- Uppercase hexadecimal digit for a nibble, as produced by
`encodeURIComponent` percent-escapes. -/
def hexChar (d : Nat) : Char :=
  if d < 10 then Char.ofNat (48 + d) else Char.ofNat (55 + d)

/-- Is the character an ASCII hexadecimal digit? -/
def jsIsHexDigit (c : Char) : Bool :=
  c.isDigit || (65 ≤ c.toNat && c.toNat ≤ 70) || (97 ≤ c.toNat && c.toNat ≤ 102)

/-- Numeric value of a hexadecimal digit character. -/
def hexVal (c : Char) : Nat :=
  if c.isDigit then c.toNat - 48
  else if 65 ≤ c.toNat && c.toNat ≤ 70 then c.toNat - 55
  else if 97 ≤ c.toNat && c.toNat ≤ 102 then c.toNat - 87
  else 0

/-- UTF-8 bytes of a unicode scalar value, as used by `encodeURIComponent`
on non-ASCII characters. -/
def utf8Bytes (c : Char) : List Nat :=
  let n := c.toNat
  if n < 128 then [n]
  else if n < 2048 then [192 + n / 64, 128 + n % 64]
  else if n < 65536 then [224 + n / 4096, 128 + (n / 64) % 64, 128 + n % 64]
  else [240 + n / 262144, 128 + (n / 4096) % 64, 128 + (n / 64) % 64, 128 + n % 64]

/-- The characters RFC 3986 / `encodeURIComponent` leaves unescaped:
alphanumerics and `- _ . ! ~ * ' ( )`. -/
def isUnreservedURI (c : Char) : Bool :=
  c.isAlphanum || c = '-' || c = '_' || c = '.' || c = '!' || c = '~' ||
    c = '*' || c.toNat = 39 || c = '(' || c = ')'

/-- Percent-escape of one byte, `%XY` with uppercase hex digits. -/
def pctEscape (b : Nat) : List Char :=
  ['%', hexChar (b / 16 % 16), hexChar (b % 16)]

/-- Model of the JS builtin `encodeURIComponent` on one character. -/
def encURIChar (c : Char) : List Char :=
  if isUnreservedURI c then [c] else (utf8Bytes c).map pctEscape |>.flatten

/-- Model of the JS builtin `encodeURIComponent`. -/
def encURIList (s : List Char) : List Char :=
  (s.map encURIChar).flatten

/-- First decoding phase of `decodeURIComponent`: turn the percent-escaped
text into a byte sequence (non-escaped characters contribute their UTF-8
bytes).  A malformed escape is passed through as a literal `%` byte, where
the real builtin would raise `URIError`; no claim exercises that path. -/
def pctBytes : List Char → List Nat
  | [] => []
  | '%' :: h1 :: h2 :: rest =>
    if jsIsHexDigit h1 && jsIsHexDigit h2 then
      (hexVal h1 * 16 + hexVal h2) :: pctBytes rest
    else utf8Bytes '%' ++ pctBytes (h1 :: h2 :: rest)
  | c :: rest => utf8Bytes c ++ pctBytes rest

/-- The unicode replacement character, emitted for invalid UTF-8. -/
def replChar : Char := Char.ofNat 65533

/-- Is the byte a UTF-8 continuation byte? -/
def isContByte (b : Nat) : Bool := 128 ≤ b && b < 192

/-- Second decoding phase of `decodeURIComponent`, as a streaming UTF-8
decoder: `need` counts continuation bytes still expected for the codepoint
partially accumulated in `acc`.  Invalid sequences produce replacement
characters (the exact resynchronisation on invalid input is irrelevant
here: every string decoded in this development is ASCII). -/
def utf8Run : List Nat → Nat → Nat → List Char
  | [], 0, _ => []
  | [], _ + 1, _ => [replChar]
  | b :: rest, 0, _ =>
    if b < 128 then Char.ofNat b :: utf8Run rest 0 0
    else if b < 192 then replChar :: utf8Run rest 0 0
    else if b < 224 then utf8Run rest 1 (b - 192)
    else if b < 240 then utf8Run rest 2 (b - 224)
    else utf8Run rest 3 (b - 240)
  | b :: rest, need + 1, acc =>
    if isContByte b then
      if need = 0 then Char.ofNat (acc * 64 + (b - 128)) :: utf8Run rest 0 0
      else utf8Run rest need (acc * 64 + (b - 128))
    else replChar :: utf8Run rest 0 0

/-- Decode a UTF-8 byte sequence back into characters. -/
def utf8Decode (bs : List Nat) : List Char := utf8Run bs 0 0

/-- Model of the JS builtin `decodeURIComponent` (see `pctBytes` for the
treatment of malformed escapes). -/
def decURIList (s : List Char) : List Char :=
  utf8Decode (pctBytes s)

/-- Decimal digit character for a value `< 10`. -/
def digitChar (d : Nat) : Char := Char.ofNat (48 + d)

/-- Fuel-driven accumulator loop producing the decimal digits of a natural
number (most significant first); the fuel is always at least `n + 1`. -/
def natToCharsCore : Nat → Nat → List Char → List Char
  | 0, _, acc => acc
  | fuel + 1, n, acc =>
    if n < 10 then digitChar n :: acc
    else natToCharsCore fuel (n / 10) (digitChar (n % 10) :: acc)

/-- Decimal representation of a natural number, as JS `String(n)` prints
integers. -/
def natToChars (n : Nat) : List Char := natToCharsCore (n + 1) n []

/-- Decimal representation of an integer, as JS template literals print
integer-valued numbers. -/
def intToChars (i : Int) : List Char :=
  if i < 0 then '-' :: natToChars i.natAbs else natToChars i.toNat

/-- Value of a list of decimal digit characters. -/
def parseDigits (l : List Char) : Nat :=
  l.foldl (fun acc c => acc * 10 + (c.toNat - 48)) 0

/-- Model of the JS expression `Number(v) || 0` as it appears in the consent
decoder, where `v` is the (possibly `undefined`) text after `=` in a pair.
Integer strings (with optional sign, after trimming) evaluate to their
value; everything that JS would make `NaN` — and `NaN || 0`, `0 || 0`,
`-0 || 0`, `'' || 0` — evaluates to `0`.  (JS `Number` also accepts
fractional, hexadecimal and exponent forms; no consent cookie written by
this code takes those shapes, and this model sends them to `0`.) -/
def jsNumberOr0 (v : Option (List Char)) : Int :=
  match v with
  | none => 0
  | some s =>
    match trimList s with
    | [] => 0
    | c :: rest =>
      if c = '-' then
        if rest ≠ [] ∧ rest.all Char.isDigit then -(parseDigits rest : Int) else 0
      else if c = '+' then
        if rest ≠ [] ∧ rest.all Char.isDigit then (parseDigits rest : Int) else 0
      else if (c :: rest).all Char.isDigit then (parseDigits (c :: rest) : Int) else 0

/-- The consent record stored in the `t_consent` cookie
(`src/unnamed/part_000`, lines 78–83). -/
structure ConsentRecord where
  analytics : Bool
  experiments : Bool
  marketing : Bool
  ts : Int
deriving Repr, DecidableEq

/-- `DEFAULT_CONSENT`: all categories off, timestamp `0`. -/
def DEFAULT_CONSENT : ConsentRecord :=
  { analytics := false, experiments := false, marketing := false, ts := 0 }

/-- An update object passed to `setConsent`: a JS object literal that may
carry any subset of the record's fields (`none` = field absent).  A `ts`
field may be present but is always overridden by `ts: Date.now()` in the
spread `{ ...curr, ...partial, ts: Date.now() }`. -/
structure ConsentUpdate where
  analytics : Option Bool := none
  experiments : Option Bool := none
  marketing : Option Bool := none
  ts : Option Int := none
deriving Repr, DecidableEq

/-- The object spread `{ ...curr, ...partial, ts: now }` both files use in
`setConsent`: update fields override current ones, and the trailing
`ts: Date.now()` overrides any `ts` the update carries. -/
def spreadConsent (curr : ConsentRecord) (u : ConsentUpdate) (now : Int) : ConsentRecord :=
  { analytics := u.analytics.getD curr.analytics
    experiments := u.experiments.getD curr.experiments
    marketing := u.marketing.getD curr.marketing
    ts := now }

/-- The `k` of `const [k, v] = pair.split('=')`: the text before the first
`=` (the whole pair when there is no `=`). -/
def pairKey (pair : List Char) : List Char := (splitOnChar '=' pair).headD []

/-- The `v` of `const [k, v] = pair.split('=')`: the text between the first
and second `=`, or `undefined` (`none`) when the pair has no `=`. -/
def pairVal (pair : List Char) : Option (List Char) := (splitOnChar '=' pair)[1]?

namespace Tangled

/-- `encodeConsent` (`src/unnamed/part_000`, lines 137–143).  Note the JS
fallback `Number(obj.ts || Date.now())`: a timestamp of `0` is falsy, so it
is replaced by the current time `now`. -/
def encodeConsent (obj : ConsentRecord) (now : Int) : List Char :=
  let a : Nat := if obj.analytics then 1 else 0
  let e : Nat := if obj.experiments then 1 else 0
  let m : Nat := if obj.marketing then 1 else 0
  let ts : Int := if obj.ts = 0 then now else obj.ts
  jstr "a=" ++ natToChars a ++ jstr "|e=" ++ natToChars e ++ jstr "|m=" ++ natToChars m
    ++ jstr "|ts=" ++ intToChars ts

/-- One iteration of the `for (const pair of str.split('|'))` loop of
`decodeConsent`: `const [k, v] = pair.split('=')`, then the `if`/`else if`
chain, with `if (!k) continue` for an empty key. -/
def decodeStep (out : ConsentRecord) (pair : List Char) : ConsentRecord :=
  let k := pairKey pair
  let v := pairVal pair
  if k = [] then out
  else if k = jstr "a" then { out with analytics := v == some (jstr "1") }
  else if k = jstr "e" then { out with experiments := v == some (jstr "1") }
  else if k = jstr "m" then { out with marketing := v == some (jstr "1") }
  else if k = jstr "ts" then { out with ts := jsNumberOr0 v }
  else out

/-- `decodeConsent` (`src/unnamed/part_000`, lines 145–157).  The argument is
`none` for the JS `null`/non-string case (`typeof str !== 'string'`), and
`some []` — falsy — also yields the default. -/
def decodeConsent (str : Option (List Char)) : ConsentRecord :=
  match str with
  | none => DEFAULT_CONSENT
  | some s =>
    if s = [] then DEFAULT_CONSENT
    else (splitOnChar '|' s).foldl decodeStep DEFAULT_CONSENT

end Tangled

/-!
## Browser cookie-jar model

`document.cookie` reads as `"n1=v1; n2=v2"`; assigning a string
`"name=value; Attr; ..."` updates (or appends) the cookie `name`.  The jar
is the association list of (encoded name, encoded value) pairs in insertion
order.  Every function that writes also returns the exact string(s) it
assigned to `document.cookie`, as the observable write effect.
-/

/-- The browser cookie jar: encoded names paired with encoded values. -/
abbrev Jar := List (List Char × List Char)

/-- The string a jar reads back as from `document.cookie`:
`"n1=v1; n2=v2"` (empty jar reads as the empty string). -/
def renderJar : Jar → List Char
  | [] => []
  | [(n, v)] => n ++ '=' :: v
  | (n, v) :: rest => n ++ '=' :: v ++ ';' :: ' ' :: renderJar rest

/-- Update the association list: replace the value of the first entry with
this name, or append a new entry. -/
def jarSet : Jar → List Char → List Char → Jar
  | [], n, v => [(n, v)]
  | (n0, v0) :: rest, n, v =>
    if n0 = n then (n, v) :: rest else (n0, v0) :: jarSet rest n v

/-- Browser semantics of assigning a string to `document.cookie`: the text
before the first `;` is the `name=value` pair (split at the first `=`);
the attributes after it do not change which entry is stored. -/
def applyCookieString (jar : Jar) (s : List Char) : Jar :=
  let nv := (splitOnChar ';' s).headD []
  let ps := splitOnChar '=' nv
  jarSet jar (ps.headD []) (List.intercalate ['='] ps.tail)


/-!
## `Date.prototype.toUTCString`

Both files stamp cookie expiry as
`` `Expires=${d.toUTCString()}` `` with `d = now + expiresDays * 864e5`.
The builtin is modelled faithfully ("Thu, 01 Jan 1970 00:00:00 GMT"
format); no theorem depends on the inner workings, both embeddings share
this one definition.
-/

/-- Floor division of an integer by a positive constant (the rounding JS
date math uses). -/
def fdivI (a : Int) (b : Int) : Int := Int.fdiv a b

/-- Gregorian calendar date (year, month 1–12, day 1–31) of a day count
relative to 1970-01-01 (Howard Hinnant's civil-from-days algorithm). -/
def civilFromDays (z0 : Int) : Int × Nat × Nat :=
  let z := z0 + 719468
  let era := fdivI z 146097
  let doe := (z - era * 146097).toNat
  let yoe := (doe - doe / 1460 + doe / 36524 - doe / 146096) / 365
  let doy := doe - (365 * yoe + yoe / 4 - yoe / 100)
  let mp := (5 * doy + 2) / 153
  let d := doy - (153 * mp + 2) / 5 + 1
  let m := if mp < 10 then mp + 3 else mp - 9
  let y := (yoe : Int) + era * 400 + (if m ≤ 2 then 1 else 0)
  (y, m, d)

/-- Two-digit zero-padded decimal. -/
def pad2 (n : Nat) : List Char :=
  if n < 10 then '0' :: natToChars n else natToChars n

/-- Abbreviated UTC weekday name, `0` = Sunday. -/
def weekdayName (w : Nat) : List Char :=
  (([jstr "Sun", jstr "Mon", jstr "Tue", jstr "Wed",
     jstr "Thu", jstr "Fri", jstr "Sat"]).getD w (jstr "Sun"))

/-- Abbreviated month name, `1` = January. -/
def monthName (m : Nat) : List Char :=
  (([jstr "Jan", jstr "Feb", jstr "Mar", jstr "Apr", jstr "May", jstr "Jun",
     jstr "Jul", jstr "Aug", jstr "Sep", jstr "Oct", jstr "Nov",
     jstr "Dec"]).getD (m - 1) (jstr "Jan"))

/-- Model of the JS builtin `Date.prototype.toUTCString` on an epoch
timestamp in milliseconds: e.g. `"Thu, 01 Jan 1970 00:00:00 GMT"`. -/
def jsToUTCString (ms : Int) : List Char :=
  let days := fdivI ms 86400000
  let tod := (ms - days * 86400000).toNat / 1000
  let wd := (Int.fmod (days + 4) 7).toNat
  let ymd := civilFromDays days
  weekdayName wd ++ jstr ", " ++ pad2 ymd.2.2 ++ [' '] ++ monthName ymd.2.1 ++ [' ']
    ++ intToChars ymd.1 ++ [' '] ++ pad2 (tod / 3600) ++ [':']
    ++ pad2 (tod % 3600 / 60) ++ [':'] ++ pad2 (tod % 60) ++ jstr " GMT"

namespace Tangled

/-- The constants of `src/unnamed/part_000`, lines 72–75. -/
def CONSENT_COOKIE : List Char := jstr "t_consent"

/-- The A/B variant cookie name. -/
def AB_COOKIE : List Char := jstr "t_ab"

/-- The `options` object of `setCookie` after the spread
`{ path: '/', expires: undefined, expiresDays: undefined, sameSite: 'Lax',
secure: true, ...options }` (lines 90–98): each field holds either the
caller's value or the default. -/
structure SetOptions where
  path : Option (List Char) := some (jstr "/")
  expires : Option Int := none
  expiresDays : Option Int := none
  sameSite : Option (List Char) := some (jstr "Lax")
  secure : Bool := true
deriving Repr, DecidableEq

/-- The string `setCookie` builds and assigns to `document.cookie`
(`src/unnamed/part_000`, lines 100–114): `name=value` percent-encoded, then
`Expires` from `expires` (a `Date`, modelled as its epoch value) or from
`now + expiresDays * 864e5`, then `Path`, `SameSite` and `Secure`, each
guarded by the truthiness of its option. -/
def setCookieStr (name : List Char) (value : JsVal) (o : SetOptions) (now : Int) :
    List Char :=
  let c := encURIList name ++ '=' :: encURIList value.toChars
  let c := match o.expires with
    | some d => c ++ jstr "; Expires=" ++ jsToUTCString d
    | none => match o.expiresDays with
      | some days => c ++ jstr "; Expires=" ++ jsToUTCString (now + days * 86400000)
      | none => c
  let c := match o.path with
    | some p => if p ≠ [] then c ++ jstr "; Path=" ++ p else c
    | none => c
  let c := match o.sameSite with
    | some ss => if ss ≠ [] then c ++ jstr "; SameSite=" ++ ss else c
    | none => c
  if o.secure then c ++ jstr "; Secure" else c

/-- `setCookie` in a browser context: assigns the built string to
`document.cookie`.  Returns the updated jar and the assigned string (the
write effect). -/
def setCookie (jar : Jar) (name : List Char) (value : JsVal) (o : SetOptions)
    (now : Int) : Jar × List Char :=
  let s := setCookieStr name value o now
  (applyCookieString jar s, s)

/-- `setCookie` as evaluated in an arbitrary environment: the body runs
`document.cookie = cookie` with no environment guard (`src/unnamed/part_000`
line 114 — unlike the font loader at line 26 and the banner at line 284,
which test `typeof document`), so with no document present the global
access itself raises `ReferenceError`. -/
def setCookieEnv (doc : Option Jar) (name : List Char) (value : JsVal)
    (o : SetOptions) (now : Int) : Except JsError (Jar × List Char) :=
  match doc with
  | none => .error .referenceError
  | some jar => .ok (setCookie jar name value o now)

/-- The scan of `getCookie`'s `for` loop over `document.cookie.split(';')`
(`src/unnamed/part_000`, lines 120–125): trim each part, return the
percent-decoded remainder of the first part starting with `target`. -/
def getCookieLoop (target : List Char) : List (List Char) → Option (List Char)
  | [] => none
  | p :: rest =>
    let t := trimList p
    if beginsWith target t then some (decURIList (t.drop target.length))
    else getCookieLoop target rest

/-- `getCookie` (`src/unnamed/part_000`, lines 117–126) over the raw
`document.cookie` string.  This very function also appears verbatim in
`src/tangled website/tangled-consent.js`, lines 70–78. -/
def getCookieRaw (raw : List Char) (name : List Char) : Option (List Char) :=
  getCookieLoop (encURIList name ++ ['=']) (splitOnChar ';' raw)

/-- `getCookie` against a jar state. -/
def getCookie (jar : Jar) (name : List Char) : Option (List Char) :=
  getCookieRaw (renderJar jar) name

/-- `getConsent` (`src/unnamed/part_000`, lines 159–161). -/
def getConsent (jar : Jar) : ConsentRecord :=
  decodeConsent (getCookie jar CONSENT_COOKIE)

/-- `setConsent` (`src/unnamed/part_000`, lines 164–169): merge the update
over the current record (`{ ...curr, ...partial, ts: Date.now() }` — any
`ts` field of the update is overridden by `now`), write the encoding with
`expiresDays = ttlDays`, return the merged record.  The result is the
returned record, the new jar, and the string assigned to
`document.cookie`. -/
def setConsent (jar : Jar) (u : ConsentUpdate) (ttlDays : Int) (now : Int) :
    ConsentRecord × Jar × List Char :=
  let curr := getConsent jar
  let next := spreadConsent curr u now
  let w := setCookie jar CONSENT_COOKIE (.str (encodeConsent next now))
    { expiresDays := some ttlDays, sameSite := some (jstr "Lax"), secure := true }
    now
  (next, w.1, w.2)

/-- `hasConsent` (`src/unnamed/part_000`, lines 171–174):
`Boolean(c && c[category] === true)`.  The record is always truthy; the
strict comparison is true only for the three boolean fields (for
`category = "ts"` it compares a number to `true`, hence `false`; any other
name reads `undefined`). -/
def hasConsent (jar : Jar) (category : List Char) : Bool :=
  let c := getConsent jar
  if category = jstr "analytics" then c.analytics
  else if category = jstr "experiments" then c.experiments
  else if category = jstr "marketing" then c.marketing
  else false

/-- The fall-through tail of `assignAB` (`src/unnamed/part_000`, lines
210–213): `v = variants[Math.floor(Math.random() * variants.length)]`,
persist it with the given expiry, return it.  With `Math.random()` modelled
as `rnum / rden`, the floor is `rnum * variants.length / rden` in
natural-number arithmetic; an out-of-range index (empty list) reads
`undefined`. -/
def assignABPick (jar : Jar) (variants : List (List Char)) (ttlDays : Int)
    (rnum rden : Nat) (now : Int) : JsVal × Jar × List (List Char) :=
  let idx := rnum * variants.length / rden
  let v2 : JsVal := match variants[idx]? with
    | some w => .str w
    | none => .undef
  let w := setCookie jar AB_COOKIE v2
    { expiresDays := some ttlDays, sameSite := some (jstr "Lax"), secure := true } now
  (v2, w.1, [w.2])

/-- `assignAB` (`src/unnamed/part_000`, lines 205–214).  Returns the JS
return value, the resulting jar, and the list of strings assigned to
`document.cookie` (empty or a singleton).  The truthiness test
`if (v && variants.includes(v))` makes an empty-string stored variant
fall through to a fresh pick. -/
def assignAB (jar : Jar) (variants : List (List Char)) (ttlDays : Int)
    (rnum rden : Nat) (now : Int) : JsVal × Jar × List (List Char) :=
  if hasConsent jar (jstr "experiments") = false then (.null, jar, [])
  else
    match getCookie jar AB_COOKIE with
    | some s =>
      if s ≠ [] ∧ s ∈ variants then (.str s, jar, [])
      else assignABPick jar variants ttlDays rnum rden now
    | none => assignABPick jar variants ttlDays rnum rden now

end Tangled

namespace TangledConsent

/-- The consent cookie name of `src/tangled website/tangled-consent.js`,
line 47. -/
def CONSENT_COOKIE : List Char := jstr "t_consent"

/-- The `options` object of this file's `setCookie` after
`{ path: '/', sameSite: 'Lax', secure: true, ...options }` (line 59):
`path`/`sameSite` are plain strings, `expiresDays` is absent unless the
caller passes it. -/
structure SetOptions where
  path : List Char := jstr "/"
  sameSite : List Char := jstr "Lax"
  secure : Bool := true
  expiresDays : Option Int := none
deriving Repr, DecidableEq

/-- The string this file's `setCookie` assigns to `document.cookie`
(lines 58–67).  Differences from `src/unnamed/part_000`: the `Expires`
guard is the truthiness test `if (opts.expiresDays)` (so `0` days means no
`Expires`), there is no `expires: Date` variant, and `Path`/`SameSite` are
appended unconditionally. -/
def setCookieStr (name : List Char) (value : JsVal) (o : SetOptions) (now : Int) :
    List Char :=
  let c := encURIList name ++ '=' :: encURIList value.toChars
  let c := match o.expiresDays with
    | some days =>
      if days ≠ 0 then c ++ jstr "; Expires=" ++ jsToUTCString (now + days * 86400000)
      else c
    | none => c
  c ++ jstr "; Path=" ++ o.path ++ jstr "; SameSite=" ++ o.sameSite
    ++ (if o.secure then jstr "; Secure" else [])

/-- This file's `setCookie` in a browser context (updated jar plus the
assigned string). -/
def setCookie (jar : Jar) (name : List Char) (value : JsVal) (o : SetOptions)
    (now : Int) : Jar × List Char :=
  let s := setCookieStr name value o now
  (applyCookieString jar s, s)

/-- One iteration of the `for (const pair of str.split('|'))` loop inside
this file's `getConsent` (lines 84–90): as in `src/unnamed/part_000` but
without the `if (!k) continue` guard (an empty key matches no branch, so
the behaviour coincides). -/
def decodeStep (out : ConsentRecord) (pair : List Char) : ConsentRecord :=
  let k := pairKey pair
  let v := pairVal pair
  if k = jstr "a" then { out with analytics := v == some (jstr "1") }
  else if k = jstr "e" then { out with experiments := v == some (jstr "1") }
  else if k = jstr "m" then { out with marketing := v == some (jstr "1") }
  else if k = jstr "ts" then { out with ts := jsNumberOr0 v }
  else out

/-- `getConsent` (`src/tangled website/tangled-consent.js`, lines 80–92);
its `getCookie` (lines 70–78) is textually identical to the one of
`src/unnamed/part_000`, so the shared embedding `Tangled.getCookie` is
used. -/
def getConsent (jar : Jar) : ConsentRecord :=
  match Tangled.getCookie jar CONSENT_COOKIE with
  | none => DEFAULT_CONSENT
  | some s =>
    if s = [] then DEFAULT_CONSENT
    else (splitOnChar '|' s).foldl decodeStep DEFAULT_CONSENT

/-- `setConsent` (`src/tangled website/tangled-consent.js`, lines 94–99):
merge, stamp `ts = now`, serialise inline (no `Number(.. || ..)` detour),
write with a fixed `expiresDays: 365`. -/
def setConsent (jar : Jar) (u : ConsentUpdate) (now : Int) :
    ConsentRecord × Jar × List Char :=
  let curr := getConsent jar
  let next := spreadConsent curr u now
  let val := jstr "a=" ++ natToChars (if next.analytics then 1 else 0)
    ++ jstr "|e=" ++ natToChars (if next.experiments then 1 else 0)
    ++ jstr "|m=" ++ natToChars (if next.marketing then 1 else 0)
    ++ jstr "|ts=" ++ intToChars next.ts
  let w := setCookie jar CONSENT_COOKIE (.str val) { expiresDays := some 365 } now
  (next, w.1, w.2)

end TangledConsent

/-!
## Jar well-formedness and lookup

Auxiliary notions used to state the read-after-write lemmas: an
association-list lookup, and the well-formedness every browser jar entry
written through `encodeURIComponent` satisfies (no whitespace, no `;`, no
`=` in names; no whitespace, no `;` in values).
-/

/-- First-match association lookup on the jar. -/
def jarGet : Jar → List Char → Option (List Char)
  | [], _ => none
  | (n0, v) :: rest, n => if n0 = n then some v else jarGet rest n

/-- Characters allowed in a stored cookie name. -/
abbrev goodNameChar (c : Char) : Prop := c.isWhitespace = false ∧ c ≠ ';' ∧ c ≠ '='

/-- Characters allowed in a stored cookie value. -/
abbrev goodValChar (c : Char) : Prop := c.isWhitespace = false ∧ c ≠ ';'

/-- A jar whose entries use only safe characters (every jar produced by
`encodeURIComponent`-encoded writes is of this shape). -/
abbrev GoodJar (jar : Jar) : Prop :=
  ∀ e ∈ jar, (∀ c ∈ e.1, goodNameChar c) ∧ (∀ c ∈ e.2, goodValChar c)

/-- The specification's description of `get(name)`: split the cookie-jar
string on `;`, trim each part, find the first part that starts with the
encoded name followed by `=`, and return its percent-decoded remainder;
`none` when no part matches.  Written from the spec sentence, to be proved
equal to the source's `getCookie` loop. -/
def getCookieSpec (raw : List Char) (name : List Char) : Option (List Char) :=
  let target := encURIList name ++ ['=']
  (((splitOnChar ';' raw).map trimList).find? (fun t => beginsWith target t)).map
    (fun t => decURIList (t.drop target.length))

/-!
## Auxiliary lemmas

Small facts about the string primitives, leading up to: the decimal
printer/parser round-trip, safety of `encodeURIComponent` output, the
ASCII `decodeURIComponent ∘ encodeURIComponent` round-trip, and the
jar-level read-after-write lemma.
-/

/-- Two characters on which a boolean test disagrees are different. -/
theorem char_ne_of_test {p : Char → Bool} {c d : Char} (hc : p c = true)
    (hd : p d = false) : c ≠ d := by
  intro h
  subst h
  rw [hc] at hd
  cases hd

/-- The four characters `Char.isWhitespace` recognises. -/
theorem isWhitespace_cases {c : Char} (h : c.isWhitespace = true) :
    c = ' ' ∨ c = '\t' ∨ c = '\r' ∨ c = '\n' := by
  simp [Char.isWhitespace] at h
  tauto

/-- A test that rejects the four whitespace characters admits no
whitespace. -/
theorem not_ws_of_test {p : Char → Bool} (hs : p ' ' = false) (ht : p '\t' = false)
    (hr : p '\r' = false) (hn : p '\n' = false) {c : Char} (hc : p c = true) :
    c.isWhitespace = false := by
  cases hw : c.isWhitespace
  · rfl
  · rcases isWhitespace_cases hw with h | h | h | h <;> subst h
    · rw [hc] at hs; cases hs
    · rw [hc] at ht; cases ht
    · rw [hc] at hr; cases hr
    · rw [hc] at hn; cases hn

/-- `splitOnChar` never returns the empty list of parts. -/
theorem splitOnChar_ne_nil (sep : Char) (l : List Char) : splitOnChar sep l ≠ [] := by
  cases l with
  | nil => simp [splitOnChar]
  | cons c rest =>
    simp only [splitOnChar]
    rcases h : splitOnChar sep rest with _ | ⟨h0, t⟩
    · simp
    · by_cases hc : c = sep <;> simp [hc]

/-- Splitting a string that does not contain the separator yields that one
part. -/
theorem splitOnChar_not_mem {sep : Char} : ∀ {l : List Char}, sep ∉ l →
    splitOnChar sep l = [l] := by
  intro l
  induction l with
  | nil => intro _; rfl
  | cons c rest ih =>
    intro h
    have hc : c ≠ sep := fun he => h (he ▸ List.mem_cons_self c rest)
    have hr := ih (fun hm => h (List.mem_cons_of_mem c hm))
    simp [splitOnChar, hr, hc]

/-- Splitting at an explicit separator occurrence, when the text before it
is separator-free. -/
theorem splitOnChar_append {sep : Char} : ∀ {xs : List Char}, sep ∉ xs →
    ∀ (ys : List Char), splitOnChar sep (xs ++ sep :: ys) = xs :: splitOnChar sep ys := by
  intro xs
  induction xs with
  | nil =>
    intro _ ys
    simp only [List.nil_append, splitOnChar]
    rcases h : splitOnChar sep ys with _ | ⟨h0, t⟩
    · exact absurd h (splitOnChar_ne_nil sep ys)
    · simp
  | cons c rest ih =>
    intro h ys
    have hc : c ≠ sep := fun he => h (he ▸ List.mem_cons_self c rest)
    have hr := ih (fun hm => h (List.mem_cons_of_mem c hm)) ys
    have he : (c :: rest) ++ sep :: ys = c :: (rest ++ sep :: ys) := rfl
    rw [he]
    simp only [splitOnChar]
    rw [hr]
    simp [hc]

/-- Trimming drops a leading space. -/
theorem trimList_cons_ws {c : Char} (hc : c.isWhitespace = true) (l : List Char) :
    trimList (c :: l) = trimList l := by
  simp [trimList, List.dropWhile_cons, hc]

/-- A string with no whitespace at all trims to itself. -/
theorem trimList_no_ws : ∀ {l : List Char}, (∀ c ∈ l, c.isWhitespace = false) →
    trimList l = l := by
  have aux : ∀ (l : List Char), (∀ c ∈ l, c.isWhitespace = false) →
      l.dropWhile Char.isWhitespace = l := by
    intro l hl
    cases l with
    | nil => rfl
    | cons c rest => simp [List.dropWhile_cons, hl c (List.mem_cons_self c rest)]
  intro l hl
  unfold trimList
  rw [aux l hl, aux l.reverse (fun c hc => hl c (List.mem_reverse.mp hc)), List.reverse_reverse]

/-- `Char.toNat` inverts `Char.ofNat` below the surrogate range. -/
theorem toNat_ofNat_small {n : Nat} (h : n < 55296) : (Char.ofNat n).toNat = n := by
  have hv : n.isValidChar := Or.inl h
  simp [Char.ofNat, hv, Char.toNat, Char.ofNatAux, UInt32.toNat, UInt32.ofNatCore]

/-- `Char.ofNat` inverts `Char.toNat`. -/
theorem ofNat_toNat (c : Char) : Char.ofNat c.toNat = c := by
  have hv : c.toNat.isValidChar := c.valid
  unfold Char.ofNat
  rw [dif_pos hv]
  apply Char.ext
  apply UInt32.ext
  rfl

/-- `digitChar` produces decimal digit characters. -/
theorem digitChar_isDigit {d : Nat} (h : d < 10) : (digitChar d).isDigit = true := by
  interval_cases d <;> decide

/-- Codepoint of a digit character. -/
theorem digitChar_toNat {d : Nat} (h : d < 10) : (digitChar d).toNat = 48 + d := by
  interval_cases d <;> decide

/-- The digit loop is insensitive to surplus fuel and appends to its
accumulator. -/
theorem natToCharsCore_eq : ∀ n fuel acc, n < fuel →
    natToCharsCore fuel n acc = natToChars n ++ acc := by
  intro n
  induction n using Nat.strong_induction_on with
  | _ n ih =>
    intro fuel acc h
    obtain ⟨m, rfl⟩ : ∃ m, fuel = m + 1 := ⟨fuel - 1, by omega⟩
    by_cases h10 : n < 10
    · simp [natToCharsCore, natToChars, h10]
    · have hdiv : n / 10 < n := Nat.div_lt_self (by omega) (by omega)
      have hstep : ∀ acc2, natToCharsCore (n + 1) n acc2 =
          natToCharsCore n (n / 10) (digitChar (n % 10) :: acc2) := by
        intro acc2; simp [natToCharsCore, h10]
      have h2 : natToChars n = natToChars (n / 10) ++ [digitChar (n % 10)] := by
        unfold natToChars
        rw [hstep, ih (n / 10) hdiv n _ (by omega)]
        rfl
      have h3 : natToCharsCore (m + 1) n acc =
          natToCharsCore m (n / 10) (digitChar (n % 10) :: acc) := by
        simp [natToCharsCore, h10]
      rw [h3, ih (n / 10) hdiv m _ (by omega), h2]
      simp

/-- The decimal digits of a one-digit number. -/
theorem natToChars_lt10 {n : Nat} (h : n < 10) : natToChars n = [digitChar n] := by
  simp [natToChars, natToCharsCore, h]

/-- Peeling the last decimal digit. -/
theorem natToChars_ge10 {n : Nat} (h : 10 ≤ n) :
    natToChars n = natToChars (n / 10) ++ [digitChar (n % 10)] := by
  have h3 : natToChars n = natToCharsCore n (n / 10) [digitChar (n % 10)] := by
    unfold natToChars
    simp [natToCharsCore, Nat.not_lt.mpr h]
  rw [h3, natToCharsCore_eq (n / 10) n _ (by
    have : n / 10 < n := Nat.div_lt_self (by omega) (by omega)
    omega)]

/-- Every character printed for a natural number is a decimal digit. -/
theorem natToChars_digits : ∀ n, ∀ c ∈ natToChars n, c.isDigit = true := by
  intro n
  induction n using Nat.strong_induction_on with
  | _ n ih =>
    intro c hc
    by_cases h10 : n < 10
    · rw [natToChars_lt10 h10] at hc
      simp at hc
      exact hc ▸ digitChar_isDigit h10
    · rw [natToChars_ge10 (by omega)] at hc
      rcases List.mem_append.mp hc with h | h
      · exact ih (n / 10) (Nat.div_lt_self (by omega) (by omega)) c h
      · simp at h
        exact h ▸ digitChar_isDigit (Nat.mod_lt n (by omega))

/-- The decimal printer never returns the empty string. -/
theorem natToChars_ne_nil (n : Nat) : natToChars n ≠ [] := by
  by_cases h10 : n < 10
  · rw [natToChars_lt10 h10]; simp
  · rw [natToChars_ge10 (by omega)]; simp

/-- `parseDigits` over a snoc. -/
theorem parseDigits_append (xs : List Char) (c : Char) :
    parseDigits (xs ++ [c]) = parseDigits xs * 10 + (c.toNat - 48) := by
  simp [parseDigits, List.foldl_append]

/-- The decimal parser inverts the decimal printer. -/
theorem parseDigits_natToChars : ∀ n, parseDigits (natToChars n) = n := by
  intro n
  induction n using Nat.strong_induction_on with
  | _ n ih =>
    by_cases h10 : n < 10
    · rw [natToChars_lt10 h10]
      simp [parseDigits, digitChar_toNat h10]
    · rw [natToChars_ge10 (by omega), parseDigits_append,
        ih (n / 10) (Nat.div_lt_self (by omega) (by omega)),
        digitChar_toNat (Nat.mod_lt n (by omega))]
      omega

/-- A digit character is none of the characters relevant to the cookie
formats. -/
theorem isDigit_not_ws {c : Char} (h : c.isDigit = true) : c.isWhitespace = false :=
  not_ws_of_test (by decide) (by decide) (by decide) (by decide) h

/-- The printer for non-negative integers. -/
theorem intToChars_nonneg {x : Int} (h : 0 ≤ x) : intToChars x = natToChars x.toNat := by
  simp [intToChars, Int.not_lt.mpr h]

/-- The printer for negative integers. -/
theorem intToChars_neg {x : Int} (h : x < 0) : intToChars x = '-' :: natToChars x.natAbs := by
  simp [intToChars, h]

/-- `Number(s) || 0` recovers a natural number from its decimal print. -/
theorem jsNumberOr0_natToChars (n : Nat) : jsNumberOr0 (some (natToChars n)) = n := by
  have hdig := natToChars_digits n
  have htrim : trimList (natToChars n) = natToChars n :=
    trimList_no_ws (fun c hc => isDigit_not_ws (hdig c hc))
  obtain ⟨c, rest, hcr⟩ := List.exists_cons_of_ne_nil (natToChars_ne_nil n)
  have hc : c.isDigit = true := hdig c (by rw [hcr]; exact List.mem_cons_self c rest)
  have hminus : c ≠ '-' := char_ne_of_test hc (by decide)
  have hplus : c ≠ '+' := char_ne_of_test hc (by decide)
  have hall : (c :: rest).all Char.isDigit = true := by
    rw [← hcr]
    exact List.all_eq_true.mpr hdig
  have hres : jsNumberOr0 (some (natToChars n)) = (parseDigits (c :: rest) : Int) := by
    simp only [jsNumberOr0]
    rw [htrim, hcr]
    simp [hminus, hplus, hall]
  rw [hres, ← hcr, parseDigits_natToChars]

/-- `Number(s) || 0` recovers an integer from its decimal print (`-0`
normalises to `0` on both sides). -/
theorem jsNumberOr0_intToChars (x : Int) : jsNumberOr0 (some (intToChars x)) = x := by
  rcases le_or_lt 0 x with h | h
  · rw [intToChars_nonneg h, jsNumberOr0_natToChars]
    omega
  · rw [intToChars_neg h]
    have hdig := natToChars_digits x.natAbs
    have hne := natToChars_ne_nil x.natAbs
    have htrim : trimList ('-' :: natToChars x.natAbs) = '-' :: natToChars x.natAbs :=
      trimList_no_ws (by
        intro c hc
        rcases List.mem_cons.mp hc with rfl | hm
        · decide
        · exact isDigit_not_ws (hdig c hm))
    have hall : (natToChars x.natAbs).all Char.isDigit = true :=
      List.all_eq_true.mpr hdig
    have hres : jsNumberOr0 (some ('-' :: natToChars x.natAbs)) =
        -(parseDigits (natToChars x.natAbs) : Int) := by
      simp only [jsNumberOr0]
      rw [htrim]
      simp [hne, hall]
    rw [hres, parseDigits_natToChars]
    omega

/-- Characters printed for an integer are a minus sign or digits; none of
them collide with the consent/cookie delimiters. -/
theorem intToChars_good (x : Int) : ∀ c ∈ intToChars x,
    c ≠ '|' ∧ c ≠ '=' ∧ c.isWhitespace = false ∧ c ≠ ';' := by
  intro c hc
  have hcls : c = '-' ∨ c.isDigit = true := by
    rcases le_or_lt 0 x with h | h
    · rw [intToChars_nonneg h] at hc
      exact Or.inr (natToChars_digits _ c hc)
    · rw [intToChars_neg h] at hc
      rcases List.mem_cons.mp hc with rfl | hm
      · exact Or.inl rfl
      · exact Or.inr (natToChars_digits _ c hm)
  rcases hcls with rfl | hd
  · refine ⟨by decide, by decide, by decide, by decide⟩
  · exact ⟨char_ne_of_test hd (by decide), char_ne_of_test hd (by decide),
      isDigit_not_ws hd, char_ne_of_test hd (by decide)⟩

/-- `decodeStep` on an `a=<x>` pair. -/
theorem decodeStep_a (out : ConsentRecord) (x : Char) (hx : x ≠ '=') :
    Tangled.decodeStep out ['a', '=', x] = { out with analytics := x == '1' } := by
  unfold Tangled.decodeStep
  have e1 : (['a', '=', x] : List Char) = ['a'] ++ '=' :: [x] := rfl
  have h1 : splitOnChar '=' ['a', '=', x] = [['a'], [x]] := by
    rw [e1, splitOnChar_append (by decide) [x],
      splitOnChar_not_mem (by simp [Ne.symm hx])]
  simp +decide [pairKey, pairVal, h1, jstr]

/-- `decodeStep` on an `e=<y>` pair. -/
theorem decodeStep_e (out : ConsentRecord) (y : Char) (hy : y ≠ '=') :
    Tangled.decodeStep out ['e', '=', y] = { out with experiments := y == '1' } := by
  unfold Tangled.decodeStep
  have e1 : (['e', '=', y] : List Char) = ['e'] ++ '=' :: [y] := rfl
  have h1 : splitOnChar '=' ['e', '=', y] = [['e'], [y]] := by
    rw [e1, splitOnChar_append (by decide) [y],
      splitOnChar_not_mem (by simp [Ne.symm hy])]
  simp +decide [pairKey, pairVal, h1, jstr]

/-- `decodeStep` on an `m=<z>` pair. -/
theorem decodeStep_m (out : ConsentRecord) (z : Char) (hz : z ≠ '=') :
    Tangled.decodeStep out ['m', '=', z] = { out with marketing := z == '1' } := by
  unfold Tangled.decodeStep
  have e1 : (['m', '=', z] : List Char) = ['m'] ++ '=' :: [z] := rfl
  have h1 : splitOnChar '=' ['m', '=', z] = [['m'], [z]] := by
    rw [e1, splitOnChar_append (by decide) [z],
      splitOnChar_not_mem (by simp [Ne.symm hz])]
  simp +decide [pairKey, pairVal, h1, jstr]

/-- `decodeStep` on a `ts=<w>` pair. -/
theorem decodeStep_ts (out : ConsentRecord) (w : List Char) (hw : '=' ∉ w) :
    Tangled.decodeStep out ('t' :: 's' :: '=' :: w) =
      { out with ts := jsNumberOr0 (some w) } := by
  unfold Tangled.decodeStep
  have e1 : ('t' :: 's' :: '=' :: w) = ['t', 's'] ++ '=' :: w := rfl
  have h1 : splitOnChar '=' ('t' :: 's' :: '=' :: w) = [['t', 's'], w] := by
    rw [e1, splitOnChar_append (by decide) w, splitOnChar_not_mem hw]
  simp +decide [pairKey, pairVal, h1, jstr]

/-- Decoding the canonical four-pair consent string. -/
theorem decodeConsent_canon (x y z : Char) (w : List Char)
    (hx : x ≠ '|' ∧ x ≠ '=') (hy : y ≠ '|' ∧ y ≠ '=') (hz : z ≠ '|' ∧ z ≠ '=')
    (hw : ∀ c ∈ w, c ≠ '|' ∧ c ≠ '=') :
    Tangled.decodeConsent (some ('a' :: '=' :: x :: '|' :: 'e' :: '=' :: y :: '|'
        :: 'm' :: '=' :: z :: '|' :: 't' :: 's' :: '=' :: w)) =
      { analytics := x == '1', experiments := y == '1', marketing := z == '1',
        ts := jsNumberOr0 (some w) } := by
  have mem1 : '|' ∉ (['a', '=', x] : List Char) := by
    simp +decide
    exact fun h => hx.1 h.symm
  have mem2 : '|' ∉ (['e', '=', y] : List Char) := by
    simp +decide
    exact fun h => hy.1 h.symm
  have mem3 : '|' ∉ (['m', '=', z] : List Char) := by
    simp +decide
    exact fun h => hz.1 h.symm
  have mem4 : '|' ∉ ('t' :: 's' :: '=' :: w) := by
    intro hm
    rcases List.mem_cons.mp hm with h | hm
    · exact absurd h (by decide)
    rcases List.mem_cons.mp hm with h | hm
    · exact absurd h (by decide)
    rcases List.mem_cons.mp hm with h | hm
    · exact absurd h (by decide)
    · exact (hw _ hm).1 rfl
  have hwne : '=' ∉ w := fun hm => (hw _ hm).2 rfl
  have e1 : ('a' :: '=' :: x :: '|' :: 'e' :: '=' :: y :: '|' :: 'm' :: '=' :: z :: '|'
      :: 't' :: 's' :: '=' :: w)
      = ['a', '=', x] ++ '|' :: (['e', '=', y] ++ '|' :: (['m', '=', z] ++ '|'
        :: ('t' :: 's' :: '=' :: w))) := rfl
  have h1 : splitOnChar '|' ('a' :: '=' :: x :: '|' :: 'e' :: '=' :: y :: '|'
      :: 'm' :: '=' :: z :: '|' :: 't' :: 's' :: '=' :: w)
      = [['a', '=', x], ['e', '=', y], ['m', '=', z], 't' :: 's' :: '=' :: w] := by
    rw [e1, splitOnChar_append mem1, splitOnChar_append mem2, splitOnChar_append mem3,
      splitOnChar_not_mem mem4]
  simp only [Tangled.decodeConsent]
  rw [if_neg (by simp : ¬('a' :: '=' :: x :: '|' :: 'e' :: '=' :: y :: '|'
    :: 'm' :: '=' :: z :: '|' :: 't' :: 's' :: '=' :: w) = []), h1]
  simp only [List.foldl]
  rw [decodeStep_a _ _ hx.2, decodeStep_e _ _ hy.2, decodeStep_m _ _ hz.2,
    decodeStep_ts _ _ hwne]

/-- `encodeConsent` in explicit character form. -/
theorem encodeConsent_shape (a e m : Bool) (ts now : Int) :
    Tangled.encodeConsent ⟨a, e, m, ts⟩ now =
      'a' :: '=' :: (if a then '1' else '0') :: '|' :: 'e' :: '='
        :: (if e then '1' else '0') :: '|' :: 'm' :: '=' :: (if m then '1' else '0')
        :: '|' :: 't' :: 's' :: '=' :: intToChars (if ts = 0 then now else ts) := by
  cases a <;> cases e <;> cases m <;> rfl

/-- Round trip of the consent codec, with the `ts = 0` fallback of
`Number(obj.ts || Date.now())` made explicit. -/
theorem decode_encode (r : ConsentRecord) (now : Int) :
    Tangled.decodeConsent (some (Tangled.encodeConsent r now)) =
      { r with ts := if r.ts = 0 then now else r.ts } := by
  obtain ⟨a, e, m, ts⟩ := r
  rw [encodeConsent_shape]
  rw [decodeConsent_canon _ _ _ _ (by cases a <;> decide) (by cases e <;> decide)
    (by cases m <;> decide)
    (fun c hc => ⟨(intToChars_good _ c hc).1, (intToChars_good _ c hc).2.1⟩)]
  have ha : ((if a then '1' else '0') == '1') = a := by cases a <;> rfl
  have he : ((if e then '1' else '0') == '1') = e := by cases e <;> rfl
  have hm : ((if m then '1' else '0') == '1') = m := by cases m <;> rfl
  rw [ha, he, hm, jsNumberOr0_intToChars]

/-- A pair whose key is none of `a`, `e`, `m`, `ts` leaves the record
unchanged. -/
theorem decodeStep_unknown (out : ConsentRecord) (p : List Char)
    (h : pairKey p ∉ ([jstr "a", jstr "e", jstr "m", jstr "ts"] : List (List Char))) :
    Tangled.decodeStep out p = out := by
  simp only [List.mem_cons, List.mem_singleton, not_or] at h
  obtain ⟨ha, he, hm, hts, -⟩ := h
  by_cases hk : pairKey p = []
  · simp [Tangled.decodeStep, hk]
  · simp [Tangled.decodeStep, hk, ha, he, hm, hts]

/-- Folding `decodeStep` over pairs with only unknown keys is the
identity. -/
theorem foldl_decodeStep_unknown : ∀ (ps : List (List Char)) (out : ConsentRecord),
    (∀ p ∈ ps, pairKey p ∉
      ([jstr "a", jstr "e", jstr "m", jstr "ts"] : List (List Char))) →
    ps.foldl Tangled.decodeStep out = out := by
  intro ps
  induction ps with
  | nil => intro out _; rfl
  | cons p rest ih =>
    intro out h
    rw [List.foldl_cons, decodeStep_unknown out p (h p (List.mem_cons_self p rest)),
      ih out (fun q hq => h q (List.mem_cons_of_mem p hq))]

/-- The two files' decode loops agree on every pair: the only textual
difference is `src/unnamed/part_000`'s `if (!k) continue`, and an empty
key matches none of the four branches anyway. -/
theorem decodeStep_agree (out : ConsentRecord) (p : List Char) :
    TangledConsent.decodeStep out p = Tangled.decodeStep out p := by
  by_cases hk : pairKey p = []
  · simp +decide [TangledConsent.decodeStep, Tangled.decodeStep, hk, jstr]
  · simp [TangledConsent.decodeStep, Tangled.decodeStep, hk]

/-- An unreserved character is none of `%`, `;`, `=`, nor whitespace. -/
theorem unreserved_good {c : Char} (h : isUnreservedURI c = true) :
    c.isWhitespace = false ∧ c ≠ ';' ∧ c ≠ '=' ∧ c ≠ '%' :=
  ⟨not_ws_of_test (by decide) (by decide) (by decide) (by decide) h,
    char_ne_of_test h (by decide), char_ne_of_test h (by decide),
    char_ne_of_test h (by decide)⟩

/-- `hexChar` of a nibble is a hexadecimal digit and a safe character. -/
theorem hexChar_good {d : Nat} (h : d < 16) :
    jsIsHexDigit (hexChar d) = true ∧ hexVal (hexChar d) = d ∧
      (hexChar d).isWhitespace = false ∧ hexChar d ≠ ';' ∧ hexChar d ≠ '=' := by
  interval_cases d <;> refine ⟨by decide, by decide, by decide, by decide, by decide⟩

/-- UTF-8 bytes are bytes. -/
theorem utf8Bytes_lt256 (c : Char) : ∀ b ∈ utf8Bytes c, b < 256 := by
  intro b hb
  have hc : c.toNat < 1114112 := by
    have hv := c.valid
    rcases hv with h | ⟨h1, h2⟩
    · change c.toNat < 55296 at h
      omega
    · change 1114112 > c.toNat at h2
      omega
  unfold utf8Bytes at hb
  by_cases h1 : c.toNat < 128
  · simp [h1] at hb
    omega
  · by_cases h2 : c.toNat < 2048
    · simp [h1, h2] at hb
      rcases hb with rfl | rfl <;> omega
    · by_cases h3 : c.toNat < 65536
      · simp [h1, h2, h3] at hb
        rcases hb with rfl | rfl | rfl <;> omega
      · simp [h1, h2, h3] at hb
        rcases hb with rfl | rfl | rfl | rfl <;> omega

/-- Every character of a percent-escape is safe. -/
theorem pctEscape_good {b : Nat} (c : Char) (hc : c ∈ pctEscape b) :
    c.isWhitespace = false ∧ c ≠ ';' ∧ c ≠ '=' := by
  rcases List.mem_cons.mp hc with rfl | hc2
  · exact ⟨by decide, by decide, by decide⟩
  rcases List.mem_cons.mp hc2 with rfl | hc3
  · have := hexChar_good (d := b / 16 % 16) (Nat.mod_lt _ (by omega))
    exact ⟨this.2.2.1, this.2.2.2.1, this.2.2.2.2⟩
  rcases List.mem_cons.mp hc3 with rfl | hc4
  · have := hexChar_good (d := b % 16) (Nat.mod_lt _ (by omega))
    exact ⟨this.2.2.1, this.2.2.2.1, this.2.2.2.2⟩
  · exact absurd hc4 (List.not_mem_nil c)

/-- `encodeURIComponent` output contains no whitespace, `;`, or `=`:
everything unsafe is percent-escaped. -/
theorem encURIList_good (s : List Char) : ∀ c ∈ encURIList s,
    c.isWhitespace = false ∧ c ≠ ';' ∧ c ≠ '=' := by
  intro c hc
  unfold encURIList at hc
  rw [List.mem_flatten] at hc
  obtain ⟨l, hl, hcl⟩ := hc
  rw [List.mem_map] at hl
  obtain ⟨d, -, rfl⟩ := hl
  unfold encURIChar at hcl
  by_cases hu : isUnreservedURI d = true
  · rw [if_pos hu] at hcl
    rcases List.mem_singleton.mp hcl with rfl
    have := unreserved_good hu
    exact ⟨this.1, this.2.1, this.2.2.1⟩
  · rw [if_neg hu] at hcl
    rw [List.mem_flatten] at hcl
    obtain ⟨l2, hl2, hcl2⟩ := hcl
    rw [List.mem_map] at hl2
    obtain ⟨b, -, rfl⟩ := hl2
    exact pctEscape_good c hcl2

/-- Unfolding `pctBytes` over a non-escape character. -/
theorem pctBytes_cons_ne {c : Char} (hc : c ≠ '%') (rest : List Char) :
    pctBytes (c :: rest) = utf8Bytes c ++ pctBytes rest := by
  cases rest with
  | nil => simp [pctBytes, hc]
  | cons d rest2 =>
    cases rest2 with
    | nil => simp [pctBytes, hc]
    | cons e rest3 => simp [pctBytes, hc]

/-- Phase one of decoding inverts encoding, character-wise, on ASCII
input. -/
theorem pctBytes_enc {s : List Char} (h : ∀ c ∈ s, c.toNat < 128) :
    pctBytes (encURIList s) = s.map Char.toNat := by
  induction s with
  | nil => simp [encURIList, pctBytes]
  | cons c s' ih =>
    have hc : c.toNat < 128 := h c (List.mem_cons_self c s')
    have hs' := fun d hd => h d (List.mem_cons_of_mem c hd)
    have hcons : encURIList (c :: s') = encURIChar c ++ encURIList s' := by
      simp [encURIList]
    rw [hcons]
    by_cases hu : isUnreservedURI c = true
    · have hne : c ≠ '%' := (unreserved_good hu).2.2.2
      rw [show encURIChar c = [c] from by simp [encURIChar, hu], List.cons_append,
        List.nil_append, pctBytes_cons_ne hne, show utf8Bytes c = [c.toNat] from by
          simp [utf8Bytes, hc], ih hs']
      rfl
    · have hb1 : c.toNat / 16 % 16 < 16 := Nat.mod_lt _ (by omega)
      have hb2 : c.toNat % 16 < 16 := Nat.mod_lt _ (by omega)
      have hesc : encURIChar c = '%' :: [hexChar (c.toNat / 16 % 16), hexChar (c.toNat % 16)] := by
        simp [encURIChar, hu, utf8Bytes, hc, pctEscape]
      rw [hesc]
      have hhex : (jsIsHexDigit (hexChar (c.toNat / 16 % 16)) &&
          jsIsHexDigit (hexChar (c.toNat % 16))) = true := by
        rw [(hexChar_good hb1).1, (hexChar_good hb2).1]
        rfl
      rw [show ('%' :: [hexChar (c.toNat / 16 % 16), hexChar (c.toNat % 16)]) ++ encURIList s'
          = '%' :: hexChar (c.toNat / 16 % 16) :: hexChar (c.toNat % 16) :: encURIList s'
        from rfl]
      rw [show pctBytes ('%' :: hexChar (c.toNat / 16 % 16) :: hexChar (c.toNat % 16)
            :: encURIList s')
          = if (jsIsHexDigit (hexChar (c.toNat / 16 % 16)) &&
              jsIsHexDigit (hexChar (c.toNat % 16))) = true then
              (hexVal (hexChar (c.toNat / 16 % 16)) * 16 + hexVal (hexChar (c.toNat % 16)))
                :: pctBytes (encURIList s')
            else utf8Bytes '%' ++ pctBytes (hexChar (c.toNat / 16 % 16)
              :: hexChar (c.toNat % 16) :: encURIList s')
        from by simp [pctBytes]]
      rw [if_pos hhex, (hexChar_good hb1).2.1, (hexChar_good hb2).2.1, ih hs']
      have : c.toNat / 16 % 16 * 16 + c.toNat % 16 = c.toNat := by omega
      rw [this]
      rfl

/-- Phase two of decoding on a pure-ASCII byte sequence. -/
theorem utf8Decode_ascii : ∀ {bs : List Nat}, (∀ b ∈ bs, b < 128) →
    utf8Decode bs = bs.map Char.ofNat := by
  intro bs
  induction bs with
  | nil => intro _; rfl
  | cons b rest ih =>
    intro h
    have hb : b < 128 := h b (List.mem_cons_self b rest)
    have hstep : utf8Decode (b :: rest) = Char.ofNat b :: utf8Decode rest := by
      unfold utf8Decode
      rw [utf8Run]
      rw [if_pos hb]
    rw [hstep, ih (fun d hd => h d (List.mem_cons_of_mem b hd))]
    rfl

/-- `decodeURIComponent` inverts `encodeURIComponent` on ASCII strings. -/
theorem decURI_encURI {s : List Char} (h : ∀ c ∈ s, c.toNat < 128) :
    decURIList (encURIList s) = s := by
  rw [decURIList, pctBytes_enc h, utf8Decode_ascii (by
    intro b hb
    rw [List.mem_map] at hb
    obtain ⟨c, hc, rfl⟩ := hb
    exact h c hc), List.map_map]
  conv_rhs => rw [← List.map_id s]
  exact List.map_congr_left (fun c _ => ofNat_toNat c)

/-- A nonempty target is not a beginning of the empty string. -/
theorem beginsWith_nil_right {t : List Char} (h : t ≠ []) : beginsWith t [] = false := by
  cases t with
  | nil => exact absurd rfl h
  | cons c t' => rfl

/-- A `name=` target matches the entry with that exact name. -/
theorem beginsWith_same (n v : List Char) : beginsWith (n ++ ['=']) (n ++ '=' :: v) = true := by
  induction n with
  | nil => simp [beginsWith]
  | cons c n' ih => simp [beginsWith, ih]

/-- A `name=` target does not match an entry with a different name, when
neither name contains `=`. -/
theorem beginsWith_ne : ∀ (n a : List Char), n ≠ a → '=' ∉ n → '=' ∉ a →
    ∀ v, beginsWith (n ++ ['=']) (a ++ '=' :: v) = false := by
  intro n
  induction n with
  | nil =>
    intro a hne _ ha v
    cases a with
    | nil => exact absurd rfl hne
    | cons c a' =>
      have hc : c ≠ '=' := fun h => ha (h ▸ List.mem_cons_self c a')
      simp [beginsWith]
      exact fun h => absurd h.symm hc
  | cons c n' ih =>
    intro a hne hn ha v
    cases a with
    | nil =>
      have hc : c ≠ '=' := fun h => hn (h ▸ List.mem_cons_self c n')
      simp [beginsWith, hc]
    | cons d a' =>
      by_cases hcd : c = d
      · subst hcd
        have hne' : n' ≠ a' := fun h => hne (h ▸ rfl)
        simp [beginsWith,
          ih a' hne' (fun h => hn (List.mem_cons_of_mem _ h))
            (fun h => ha (List.mem_cons_of_mem _ h)) v]
      · simp [beginsWith, hcd]

/-- Dropping the matched `name=` target leaves the value. -/
theorem drop_name_eq (n v : List Char) :
    (n ++ '=' :: v).drop (n ++ ['=']).length = v := by
  have h : n ++ '=' :: v = (n ++ ['=']) ++ v := by simp
  rw [h, List.drop_left]

/-- The cookie scan ignores the leading space the jar rendering puts after
each `;`. -/
theorem getCookieLoop_cons_sp (target p : List Char) (ps : List (List Char)) :
    Tangled.getCookieLoop target ((' ' :: p) :: ps) = Tangled.getCookieLoop target (p :: ps) := by
  unfold Tangled.getCookieLoop
  rw [trimList_cons_ws (by decide)]

/-- Unfolding one step of the cookie scan. -/
theorem getCookieLoop_cons (target p : List Char) (ps : List (List Char)) :
    Tangled.getCookieLoop target (p :: ps) =
      if beginsWith target (trimList p) = true then
        some (decURIList ((trimList p).drop target.length))
      else Tangled.getCookieLoop target ps := by
  simp [Tangled.getCookieLoop]

/-- `getCookie` against a rendered well-formed jar is the association
lookup of the encoded name, percent-decoded. -/
theorem getCookie_jarGet (name : List Char) : ∀ (jar : Jar), GoodJar jar →
    Tangled.getCookie jar name = (jarGet jar (encURIList name)).map decURIList := by
  intro jar
  induction jar with
  | nil =>
    intro _
    unfold Tangled.getCookie Tangled.getCookieRaw
    rw [show renderJar [] = ([] : List Char) from rfl,
      show splitOnChar ';' ([] : List Char) = [[]] from rfl, getCookieLoop_cons,
      show trimList ([] : List Char) = [] from rfl, beginsWith_nil_right (by simp),
      if_neg (by simp)]
    simp [Tangled.getCookieLoop, jarGet]
  | cons e rest ih =>
    obtain ⟨a, v⟩ := e
    intro hg
    have hga := (hg (a, v) (List.mem_cons_self _ _)).1
    have hgv := (hg (a, v) (List.mem_cons_self _ _)).2
    have hrest : GoodJar rest := fun e2 he => hg e2 (List.mem_cons_of_mem _ he)
    have heq_a : '=' ∉ a := fun hm => (hga _ hm).2.2 rfl
    have hws : ∀ c ∈ a ++ '=' :: v, c.isWhitespace = false := by
      intro c hc
      rcases List.mem_append.mp hc with h | h
      · exact (hga _ h).1
      rcases List.mem_cons.mp h with rfl | h
      · decide
      · exact (hgv _ h).1
    have hsemi_nv : ';' ∉ a ++ '=' :: v := by
      intro hm
      rcases List.mem_append.mp hm with h | h
      · exact (hga _ h).2.1 rfl
      rcases List.mem_cons.mp h with h | h
      · exact absurd h (by decide)
      · exact (hgv _ h).2 rfl
    have htrim : trimList (a ++ '=' :: v) = a ++ '=' :: v := trimList_no_ws hws
    have heq_enc : '=' ∉ encURIList name := fun hm => (encURIList_good name _ hm).2.2 rfl
    cases rest with
    | nil =>
      unfold Tangled.getCookie Tangled.getCookieRaw
      rw [show renderJar [(a, v)] = a ++ '=' :: v from rfl, splitOnChar_not_mem hsemi_nv,
        getCookieLoop_cons, htrim]
      by_cases hname : encURIList name = a
      · subst hname
        rw [beginsWith_same, if_pos rfl, drop_name_eq]
        simp [jarGet]
      · rw [beginsWith_ne _ _ hname heq_enc heq_a v, if_neg (by simp)]
        simp [Tangled.getCookieLoop, jarGet, Ne.symm hname]
    | cons e2 rest2 =>
      have hrender : renderJar ((a, v) :: e2 :: rest2)
          = (a ++ '=' :: v) ++ ';' :: (' ' :: renderJar (e2 :: rest2)) := by
        simp [renderJar]
      unfold Tangled.getCookie Tangled.getCookieRaw at ih ⊢
      rw [hrender, splitOnChar_append hsemi_nv]
      obtain ⟨p0, ps, hsplit⟩ : ∃ p0 ps,
          splitOnChar ';' (renderJar (e2 :: rest2)) = p0 :: ps := by
        rcases hs : splitOnChar ';' (renderJar (e2 :: rest2)) with _ | ⟨p0, ps⟩
        · exact absurd hs (splitOnChar_ne_nil _ _)
        · exact ⟨p0, ps, rfl⟩
      have hsp : splitOnChar ';' (' ' :: renderJar (e2 :: rest2)) = (' ' :: p0) :: ps := by
        simp only [splitOnChar, hsplit]
        rw [if_neg (by decide : ¬(' ' = ';'))]
      rw [hsp, getCookieLoop_cons, htrim]
      by_cases hname : encURIList name = a
      · subst hname
        rw [beginsWith_same, if_pos rfl, drop_name_eq]
        simp [jarGet]
      · rw [beginsWith_ne _ _ hname heq_enc heq_a v, if_neg (by simp),
          getCookieLoop_cons_sp, ← hsplit, ih hrest]
        simp [jarGet, Ne.symm hname]

/-- Looking up the name just stored. -/
theorem jarGet_jarSet_same : ∀ (jar : Jar) (n v : List Char),
    jarGet (jarSet jar n v) n = some v := by
  intro jar n v
  induction jar with
  | nil => simp [jarSet, jarGet]
  | cons e rest ih =>
    obtain ⟨n0, v0⟩ := e
    by_cases h : n0 = n
    · simp [jarSet, h, jarGet]
    · simp [jarSet, h, jarGet, ih]

/-- Storing a safe entry preserves jar well-formedness. -/
theorem GoodJar_jarSet : ∀ (jar : Jar), GoodJar jar → ∀ (n v : List Char),
    (∀ c ∈ n, goodNameChar c) → (∀ c ∈ v, goodValChar c) → GoodJar (jarSet jar n v) := by
  intro jar
  induction jar with
  | nil =>
    intro _ n v hn hv e he
    rcases List.mem_singleton.mp he with rfl
    exact ⟨hn, hv⟩
  | cons e0 rest ih =>
    intro hg n v hn hv
    obtain ⟨n0, v0⟩ := e0
    have hg0 := hg (n0, v0) (List.mem_cons_self _ _)
    have hrest : GoodJar rest := fun e2 he => hg e2 (List.mem_cons_of_mem _ he)
    by_cases h : n0 = n
    · intro e he
      rw [show jarSet ((n0, v0) :: rest) n v = (n, v) :: rest from by simp [jarSet, h]] at he
      rcases List.mem_cons.mp he with rfl | he2
      · exact ⟨hn, hv⟩
      · exact hrest _ he2
    · intro e he
      rw [show jarSet ((n0, v0) :: rest) n v = (n0, v0) :: jarSet rest n v
        from by simp [jarSet, h]] at he
      rcases List.mem_cons.mp he with rfl | he2
      · exact hg0
      · exact ih hrest n v hn hv _ he2

/-- Assigning a well-shaped `name=value; attributes` string to
`document.cookie` stores exactly that name and value. -/
theorem applyCookieString_shape (jar : Jar) (n v attrs : List Char)
    (hn1 : ';' ∉ n) (hn2 : '=' ∉ n) (hv1 : ';' ∉ v) (hv2 : '=' ∉ v) :
    applyCookieString jar (n ++ '=' :: v ++ ';' :: attrs) = jarSet jar n v := by
  unfold applyCookieString
  have hnv : ';' ∉ n ++ '=' :: v := by
    intro hm
    rcases List.mem_append.mp hm with h | h
    · exact hn1 h
    rcases List.mem_cons.mp h with h | h
    · exact absurd h (by decide)
    · exact hv1 h
  have e1 : n ++ '=' :: v ++ ';' :: attrs = (n ++ '=' :: v) ++ ';' :: attrs := by simp
  rw [e1, splitOnChar_append hnv]
  simp only [List.headD_cons]
  rw [splitOnChar_append hn2, splitOnChar_not_mem hv2]
  simp [List.intercalate]

/-- The string built by `src/unnamed/part_000`'s `setCookie` for the options
used by the consent and A/B writes (`expiresDays` a number, default path,
`SameSite=Lax`, `Secure`). -/
theorem setCookieStr_std (name : List Char) (value : JsVal) (d now : Int) :
    Tangled.setCookieStr name value
        { expiresDays := some d, sameSite := some (jstr "Lax"), secure := true } now
      = encURIList name ++ '=' :: encURIList value.toChars
        ++ jstr "; Expires=" ++ jsToUTCString (now + d * 86400000)
        ++ jstr "; Path=/; SameSite=Lax; Secure" := by
  simp [Tangled.setCookieStr, List.append_assoc, jstr]

/-- Effect of a standard-options `setCookie` of `src/unnamed/part_000` on a
jar: the encoded pair is stored, and the assigned string is as built. -/
theorem setCookie_std (jar : Jar) (name : List Char) (value : JsVal) (d now : Int) :
    Tangled.setCookie jar name value
        { expiresDays := some d, sameSite := some (jstr "Lax"), secure := true } now
      = (jarSet jar (encURIList name) (encURIList value.toChars),
         encURIList name ++ '=' :: encURIList value.toChars
           ++ jstr "; Expires=" ++ jsToUTCString (now + d * 86400000)
           ++ jstr "; Path=/; SameSite=Lax; Secure") := by
  have hshape : encURIList name ++ '=' :: encURIList value.toChars
      ++ jstr "; Expires=" ++ jsToUTCString (now + d * 86400000)
      ++ jstr "; Path=/; SameSite=Lax; Secure"
      = encURIList name ++ '=' :: encURIList value.toChars
        ++ ';' :: (jstr " Expires=" ++ jsToUTCString (now + d * 86400000)
          ++ jstr "; Path=/; SameSite=Lax; Secure") := by
    simp [List.append_assoc, jstr]
  simp only [Tangled.setCookie]
  rw [setCookieStr_std, hshape, applyCookieString_shape jar _ _ _
    (fun hm => (encURIList_good name _ hm).2.1 rfl)
    (fun hm => (encURIList_good name _ hm).2.2 rfl)
    (fun hm => (encURIList_good value.toChars _ hm).2.1 rfl)
    (fun hm => (encURIList_good value.toChars _ hm).2.2 rfl)]

/-- Decimal digits are ASCII. -/
theorem natToChars_ascii : ∀ n, ∀ c ∈ natToChars n, c.toNat < 128 := by
  intro n
  induction n using Nat.strong_induction_on with
  | _ n ih =>
    intro c hc
    by_cases h10 : n < 10
    · rw [natToChars_lt10 h10] at hc
      simp at hc
      subst hc
      rw [digitChar_toNat h10]
      omega
    · rw [natToChars_ge10 (by omega)] at hc
      rcases List.mem_append.mp hc with h | h
      · exact ih (n / 10) (Nat.div_lt_self (by omega) (by omega)) c h
      · simp at h
        subst h
        rw [digitChar_toNat (Nat.mod_lt n (by omega))]
        omega

/-- Printed integers are ASCII. -/
theorem intToChars_ascii (x : Int) : ∀ c ∈ intToChars x, c.toNat < 128 := by
  intro c hc
  rcases le_or_lt 0 x with h | h
  · rw [intToChars_nonneg h] at hc
    exact natToChars_ascii _ c hc
  · rw [intToChars_neg h] at hc
    rcases List.mem_cons.mp hc with rfl | hm
    · decide
    · exact natToChars_ascii _ c hm

/-- The encoded consent string is ASCII. -/
theorem encodeConsent_ascii (r : ConsentRecord) (now : Int) :
    ∀ c ∈ Tangled.encodeConsent r now, c.toNat < 128 := by
  obtain ⟨a, e, m, ts⟩ := r
  intro c hc
  rw [encodeConsent_shape] at hc
  cases a <;> cases e <;> cases m <;>
    simp only [List.mem_cons] at hc <;>
    rcases hc with rfl | rfl | rfl | rfl | rfl | rfl | rfl | rfl | rfl | rfl | rfl | rfl
      | rfl | rfl | rfl | hc <;>
    first
      | decide
      | exact intToChars_ascii _ c hc

/-- Reading the consent record back after a `jarSet` of its encoding. -/
theorem getConsent_jarSet_encode (jar : Jar) (hg : GoodJar jar) (r : ConsentRecord)
    (now : Int) :
    Tangled.getConsent (jarSet jar (jstr "t_consent")
        (encURIList (Tangled.encodeConsent r now)))
      = { r with ts := if r.ts = 0 then now else r.ts } := by
  unfold Tangled.getConsent
  have hg2 : GoodJar (jarSet jar (jstr "t_consent")
      (encURIList (Tangled.encodeConsent r now))) :=
    GoodJar_jarSet jar hg _ _ (by decide)
      (fun c hc => ⟨(encURIList_good _ c hc).1, (encURIList_good _ c hc).2.1⟩)
  rw [show Tangled.CONSENT_COOKIE = jstr "t_consent" from rfl,
    getCookie_jarGet _ _ hg2,
    show encURIList (jstr "t_consent") = jstr "t_consent" from rfl,
    jarGet_jarSet_same]
  simp only [Option.map_some']
  rw [decURI_encURI (encodeConsent_ascii r now)]
  exact decode_encode r now

/-- `setConsent` of `src/unnamed/part_000`, fully evaluated: the returned
record is the spread-merge, the jar stores the encoded record under
`t_consent`, and the assigned cookie string carries the requested
expiry. -/
theorem setConsent_eq (jar : Jar) (u : ConsentUpdate) (ttl now : Int) :
    Tangled.setConsent jar u ttl now =
      (spreadConsent (Tangled.getConsent jar) u now,
       jarSet jar (jstr "t_consent")
         (encURIList (Tangled.encodeConsent
           (spreadConsent (Tangled.getConsent jar) u now) now)),
       jstr "t_consent=" ++ encURIList (Tangled.encodeConsent
           (spreadConsent (Tangled.getConsent jar) u now) now)
         ++ jstr "; Expires=" ++ jsToUTCString (now + ttl * 86400000)
         ++ jstr "; Path=/; SameSite=Lax; Secure") := by
  simp only [Tangled.setConsent]
  rw [setCookie_std, show encURIList Tangled.CONSENT_COOKIE = jstr "t_consent" from rfl]
  simp [JsVal.toChars, jstr, List.append_assoc]

/-- `hasConsent "experiments"` is the experiments field. -/
theorem hasConsent_experiments (jar : Jar) :
    Tangled.hasConsent jar (jstr "experiments") = (Tangled.getConsent jar).experiments := by
  simp +decide [Tangled.hasConsent, jstr]

/-- `hasConsent "analytics"` is the analytics field. -/
theorem hasConsent_analytics (jar : Jar) :
    Tangled.hasConsent jar (jstr "analytics") = (Tangled.getConsent jar).analytics := by
  simp +decide [Tangled.hasConsent, jstr]

/-- `hasConsent "marketing"` is the marketing field. -/
theorem hasConsent_marketing (jar : Jar) :
    Tangled.hasConsent jar (jstr "marketing") = (Tangled.getConsent jar).marketing := by
  simp +decide [Tangled.hasConsent, jstr]

/-- Without experiments consent, `assignAB` returns `null` and touches
nothing. -/
theorem assignAB_noConsent (jar : Jar) (variants : List (List Char)) (ttl : Int)
    (rnum rden : Nat) (now : Int)
    (h : (Tangled.getConsent jar).experiments = false) :
    Tangled.assignAB jar variants ttl rnum rden now = (JsVal.null, jar, []) := by
  simp only [Tangled.assignAB]
  rw [hasConsent_experiments, h]
  simp

/-- With experiments consent and a stored, truthy, listed variant,
`assignAB` returns it and writes nothing. -/
theorem assignAB_stable (jar : Jar) (variants : List (List Char)) (ttl : Int)
    (rnum rden : Nat) (now : Int) (v : List Char)
    (hex : (Tangled.getConsent jar).experiments = true)
    (hv : Tangled.getCookie jar (jstr "t_ab") = some v)
    (hne : v ≠ []) (hmem : v ∈ variants) :
    Tangled.assignAB jar variants ttl rnum rden now = (JsVal.str v, jar, []) := by
  simp only [Tangled.assignAB]
  rw [hasConsent_experiments, hex, if_neg (by simp),
    show Tangled.AB_COOKIE = jstr "t_ab" from rfl, hv]
  simp [hne, hmem]

/-- Evaluating the fresh-pick tail. -/
theorem assignABPick_eq (jar : Jar) (variants : List (List Char)) (ttl : Int)
    (rnum rden : Nat) (now : Int) :
    Tangled.assignABPick jar variants ttl rnum rden now =
      ((match variants[rnum * variants.length / rden]? with
         | some w => JsVal.str w
         | none => JsVal.undef),
       jarSet jar (jstr "t_ab") (encURIList (JsVal.toChars
         (match variants[rnum * variants.length / rden]? with
           | some w => JsVal.str w
           | none => JsVal.undef))),
       [jstr "t_ab=" ++ encURIList (JsVal.toChars
           (match variants[rnum * variants.length / rden]? with
             | some w => JsVal.str w
             | none => JsVal.undef))
         ++ jstr "; Expires=" ++ jsToUTCString (now + ttl * 86400000)
         ++ jstr "; Path=/; SameSite=Lax; Secure"]) := by
  simp only [Tangled.assignABPick]
  rw [setCookie_std, show encURIList Tangled.AB_COOKIE = jstr "t_ab" from rfl]
  simp [jstr, List.append_assoc]

/-- With experiments consent but no usable stored variant, `assignAB` takes
the fresh-pick tail. -/
theorem assignAB_fresh (jar : Jar) (variants : List (List Char)) (ttl : Int)
    (rnum rden : Nat) (now : Int)
    (hex : (Tangled.getConsent jar).experiments = true)
    (hfresh : Tangled.getCookie jar (jstr "t_ab") = none ∨
      ∃ s, Tangled.getCookie jar (jstr "t_ab") = some s ∧ (s = [] ∨ s ∉ variants)) :
    Tangled.assignAB jar variants ttl rnum rden now =
      Tangled.assignABPick jar variants ttl rnum rden now := by
  simp only [Tangled.assignAB]
  rw [hasConsent_experiments, hex, if_neg (by simp),
    show Tangled.AB_COOKIE = jstr "t_ab" from rfl]
  rcases hfresh with hnone | ⟨s, hsome, hbad⟩
  · rw [hnone]
  · rw [hsome]
    show (if s ≠ [] ∧ s ∈ variants then (JsVal.str s, jar, [])
      else Tangled.assignABPick jar variants ttl rnum rden now) = _
    rw [if_neg (by
      rintro ⟨hne, hmem⟩
      rcases hbad with rfl | hnm
      · exact hne rfl
      · exact hnm hmem)]

/-- The uniform pick lands inside a nonempty variant list. -/
theorem pick_lt (variants : List (List Char)) (rnum rden : Nat)
    (h : rnum < rden) (hne : variants ≠ []) :
    rnum * variants.length / rden < variants.length := by
  have hlen : 0 < variants.length := List.length_pos.mpr hne
  exact Nat.div_lt_of_lt_mul ((Nat.mul_lt_mul_right hlen).mpr h)

/-- Both decode loops agree fold-wise. -/
theorem foldl_decodeStep_agree : ∀ (ps : List (List Char)) (out : ConsentRecord),
    ps.foldl TangledConsent.decodeStep out = ps.foldl Tangled.decodeStep out := by
  intro ps
  induction ps with
  | nil => intro _; rfl
  | cons p rest ih =>
    intro out
    rw [List.foldl_cons, List.foldl_cons, decodeStep_agree, ih]

/-- The two files' `getConsent` agree on every jar. -/
theorem getConsent_agree (jar : Jar) :
    TangledConsent.getConsent jar = Tangled.getConsent jar := by
  unfold TangledConsent.getConsent Tangled.getConsent Tangled.decodeConsent
  rw [show TangledConsent.CONSENT_COOKIE = Tangled.CONSENT_COOKIE from rfl]
  cases h : Tangled.getCookie jar Tangled.CONSENT_COOKIE with
  | none => rfl
  | some s =>
    by_cases hs : s = []
    · simp [hs]
    · simp [hs, foldl_decodeStep_agree]

/-- The string built by `tangled-consent.js`'s `setCookie` under its
defaults with a non-zero `expiresDays` (the truthiness test
`if (opts.expiresDays)`). -/
theorem setCookieStr2_std (name : List Char) (value : JsVal) (d now : Int) (hd : d ≠ 0) :
    TangledConsent.setCookieStr name value { expiresDays := some d } now
      = encURIList name ++ '=' :: encURIList value.toChars
        ++ jstr "; Expires=" ++ jsToUTCString (now + d * 86400000)
        ++ jstr "; Path=/; SameSite=Lax; Secure" := by
  simp [TangledConsent.setCookieStr, hd, List.append_assoc, jstr]

/-- Applying a standard-shape cookie assignment stores the encoded pair. -/
theorem applyCookieString_std (jar : Jar) (name : List Char) (value : JsVal)
    (u : List Char) :
    applyCookieString jar (encURIList name ++ '=' :: encURIList value.toChars
        ++ jstr "; Expires=" ++ u ++ jstr "; Path=/; SameSite=Lax; Secure")
      = jarSet jar (encURIList name) (encURIList value.toChars) := by
  have hshape : encURIList name ++ '=' :: encURIList value.toChars
      ++ jstr "; Expires=" ++ u ++ jstr "; Path=/; SameSite=Lax; Secure"
      = encURIList name ++ '=' :: encURIList value.toChars
        ++ ';' :: (jstr " Expires=" ++ u ++ jstr "; Path=/; SameSite=Lax; Secure") := by
    simp [List.append_assoc, jstr]
  rw [hshape, applyCookieString_shape jar _ _ _
    (fun hm => (encURIList_good name _ hm).2.1 rfl)
    (fun hm => (encURIList_good name _ hm).2.2 rfl)
    (fun hm => (encURIList_good value.toChars _ hm).2.1 rfl)
    (fun hm => (encURIList_good value.toChars _ hm).2.2 rfl)]

/-- Effect of `tangled-consent.js`'s `setCookie` with non-zero
`expiresDays`. -/
theorem setCookie2_std (jar : Jar) (name : List Char) (value : JsVal) (d now : Int)
    (hd : d ≠ 0) :
    TangledConsent.setCookie jar name value { expiresDays := some d } now
      = (jarSet jar (encURIList name) (encURIList value.toChars),
         encURIList name ++ '=' :: encURIList value.toChars
           ++ jstr "; Expires=" ++ jsToUTCString (now + d * 86400000)
           ++ jstr "; Path=/; SameSite=Lax; Secure") := by
  simp only [TangledConsent.setCookie]
  rw [setCookieStr2_std _ _ _ _ hd, applyCookieString_std]

/-- The two files' `setConsent` agree (the second file fixes
`ttlDays = 365`): same returned record, same jar, same assigned string. -/
theorem setConsent_agree (jar : Jar) (u : ConsentUpdate) (now : Int) :
    TangledConsent.setConsent jar u now = Tangled.setConsent jar u 365 now := by
  rw [setConsent_eq]
  simp only [TangledConsent.setConsent]
  rw [getConsent_agree, setCookie2_std _ _ _ _ _ (by norm_num),
    show encURIList TangledConsent.CONSENT_COOKIE = jstr "t_consent" from rfl]
  simp [Tangled.encodeConsent, spreadConsent, JsVal.toChars, jstr, List.append_assoc]

/-- The source's scan loop computes the specification's
find-first-then-decode description. -/
theorem getCookieLoop_spec (target : List Char) : ∀ ps : List (List Char),
    Tangled.getCookieLoop target ps
      = ((ps.map trimList).find? (fun t => beginsWith target t)).map
          (fun t => decURIList (t.drop target.length)) := by
  intro ps
  induction ps with
  | nil => rfl
  | cons p rest ih =>
    rw [getCookieLoop_cons]
    by_cases h : beginsWith target (trimList p) = true
    · simp [h]
    · simp only [Bool.not_eq_true] at h
      simp [h, ih]

/-!
## Claim theorems
-/

/-- C1, counterexample: the round-trip fails as stated at `ts = 0` — the
falsy-fallback `Number(obj.ts || Date.now())` in `encodeConsent` replaces a
zero timestamp by the current time (here `1`), so decoding returns
`ts = 1`, not `ts = 0`. -/
theorem C1_counterexample :
    Tangled.decodeConsent (some (Tangled.encodeConsent
        { analytics := false, experiments := false, marketing := false, ts := 0 } 1))
      ≠ { analytics := false, experiments := false, marketing := false, ts := 0 } := by
  decide

/-- C1, amended: for every ConsentRecord with boolean fields and a
*positive* integer timestamp, `decodeConsent (encodeConsent record) =
record`; the `ts = 0` case is excluded because encoding substitutes the
current time for a zero timestamp. -/
theorem C1_roundtrip (a e m : Bool) (ts now : Int) (h : 0 < ts) :
    Tangled.decodeConsent (some (Tangled.encodeConsent
        { analytics := a, experiments := e, marketing := m, ts := ts } now))
      = { analytics := a, experiments := e, marketing := m, ts := ts } := by
  rw [decode_encode]
  simp [show ¬ts = 0 from by omega]

/-- C1 witness: a concrete round trip with `ts = 7`. -/
theorem C1_roundtrip_witness :
    Tangled.decodeConsent (some (Tangled.encodeConsent
        { analytics := true, experiments := false, marketing := true, ts := 7 } 99))
      = { analytics := true, experiments := false, marketing := true, ts := 7 } :=
  C1_roundtrip true false true 7 99 (by decide)

/-- C2: whenever the decoded consent record has `experiments = false`
(which covers both a stored record with that field off and a missing or
malformed consent cookie), `assignAB` returns `null`, leaves the jar
unchanged, and assigns nothing to `document.cookie` — for every variants
list, TTL, random draw, and clock, and regardless of any stored variant
cookie (the jar is universally quantified).  Cookie *reads* are pure in
this embedding; the claim's observable content is that no cookie is
created or changed. -/
theorem C2_assignAB_null (jar : Jar) (variants : List (List Char)) (ttl : Int)
    (rnum rden : Nat) (now : Int)
    (h : (Tangled.getConsent jar).experiments = false) :
    Tangled.assignAB jar variants ttl rnum rden now = (JsVal.null, jar, []) :=
  assignAB_noConsent jar variants ttl rnum rden now h

/-- C2 witness: a jar with no consent cookie but a pre-existing variant
cookie; `assignAB` still returns `null` and writes nothing. -/
theorem C2_assignAB_null_witness :
    Tangled.assignAB [(jstr "t_ab", jstr "X")] [jstr "A", jstr "B"] 14 0 1 5
      = (JsVal.null, [(jstr "t_ab", jstr "X")], []) :=
  C2_assignAB_null [(jstr "t_ab", jstr "X")] [jstr "A", jstr "B"] 14 0 1 5 (by decide)

/-- C3: on a well-formed jar, `setConsent` returns the spread-merge of the
update over the current record with `ts = now`, assigns to
`document.cookie` exactly the serialization of that record with
`Expires = now + ttlDays·864e5`, and the stored state decodes back to the
merged record; in particular, after `setConsent {analytics := true}`,
`hasConsent "analytics"` is true while the experiments and marketing
fields keep their prior values. -/
theorem C3_setConsent (jar : Jar) (u : ConsentUpdate) (ttl now : Int)
    (hg : GoodJar jar) :
    (Tangled.setConsent jar u ttl now).1
      = spreadConsent (Tangled.getConsent jar) u now
    ∧ (Tangled.setConsent jar u ttl now).2.2
      = jstr "t_consent=" ++ encURIList (Tangled.encodeConsent
          (spreadConsent (Tangled.getConsent jar) u now) now)
        ++ jstr "; Expires=" ++ jsToUTCString (now + ttl * 86400000)
        ++ jstr "; Path=/; SameSite=Lax; Secure"
    ∧ Tangled.getConsent (Tangled.setConsent jar u ttl now).2.1
      = spreadConsent (Tangled.getConsent jar) u now
    ∧ Tangled.hasConsent
        (Tangled.setConsent jar { analytics := some true } ttl now).2.1
        (jstr "analytics") = true
    ∧ (Tangled.getConsent
        (Tangled.setConsent jar { analytics := some true } ttl now).2.1).experiments
      = (Tangled.getConsent jar).experiments
    ∧ (Tangled.getConsent
        (Tangled.setConsent jar { analytics := some true } ttl now).2.1).marketing
      = (Tangled.getConsent jar).marketing := by
  have hread : ∀ u2 : ConsentUpdate,
      Tangled.getConsent (Tangled.setConsent jar u2 ttl now).2.1
        = spreadConsent (Tangled.getConsent jar) u2 now := by
    intro u2
    rw [setConsent_eq, getConsent_jarSet_encode jar hg]
    simp [spreadConsent]
  refine ⟨by rw [setConsent_eq], by rw [setConsent_eq], hread u, ?_, ?_, ?_⟩
  · rw [hasConsent_analytics, hread { analytics := some true }]
    simp [spreadConsent]
  · rw [hread { analytics := some true }]
    simp [spreadConsent]
  · rw [hread { analytics := some true }]
    simp [spreadConsent]

/-- C3 witness: on the empty jar at `now = 5`, setting analytics makes
`hasConsent "analytics"` true. -/
theorem C3_setConsent_witness :
    Tangled.hasConsent
      (Tangled.setConsent [] { analytics := some true } 365 5).2.1
      (jstr "analytics") = true :=
  (C3_setConsent [] { analytics := some true } 365 5 (by decide)).2.2.2.1

/-- C4: decoding `null`/a non-string (the `typeof` guard maps both to the
default branch, embedded as `none`), the empty string, or any string whose
`|`-separated pairs all have keys other than `a`, `e`, `m`, `ts`, yields
the full default record without raising. -/
theorem C4_decode_default :
    Tangled.decodeConsent none = DEFAULT_CONSENT
    ∧ Tangled.decodeConsent (some []) = DEFAULT_CONSENT
    ∧ ∀ s : List Char, (∀ p ∈ splitOnChar '|' s,
        pairKey p ∉ ([jstr "a", jstr "e", jstr "m", jstr "ts"] : List (List Char))) →
      Tangled.decodeConsent (some s) = DEFAULT_CONSENT := by
  refine ⟨rfl, rfl, ?_⟩
  intro s h
  by_cases hs : s = []
  · simp [Tangled.decodeConsent, hs]
  · simp only [Tangled.decodeConsent]
    rw [if_neg hs]
    exact foldl_decodeStep_unknown _ DEFAULT_CONSENT h

/-- C4 witness: a string with only unknown keys decodes to the default. -/
theorem C4_decode_default_witness :
    Tangled.decodeConsent (some (jstr "x=1|foo=bar|=3")) = DEFAULT_CONSENT :=
  C4_decode_default.2.2 (jstr "x=1|foo=bar|=3") (by decide)

/-- C5: once the stored record's timestamp is positive, any later
`setConsent` — with any update, including one carrying a `ts` field, which
the trailing `ts: Date.now()` overrides — returns and stores a record with
a positive timestamp: the state never reverts to Unset.  ("Later" is the
monotone-clock hypothesis `ts ≤ now`.) -/
theorem C5_set_stays_set (jar : Jar) (u : ConsentUpdate) (ttl now : Int)
    (hg : GoodJar jar) (hset : 0 < (Tangled.getConsent jar).ts)
    (hnow : (Tangled.getConsent jar).ts ≤ now) :
    0 < (Tangled.setConsent jar u ttl now).1.ts
    ∧ 0 < (Tangled.getConsent (Tangled.setConsent jar u ttl now).2.1).ts := by
  have hnowpos : 0 < now := lt_of_lt_of_le hset hnow
  constructor
  · rw [setConsent_eq]
    simpa [spreadConsent] using hnowpos
  · rw [setConsent_eq, getConsent_jarSet_encode jar hg]
    simpa [spreadConsent] using hnowpos

/-- C5 witness: a jar whose consent record has `ts = 1`, updated at
`now = 5` with an update that even carries `ts := some 0`. -/
theorem C5_set_stays_set_witness :
    0 < (Tangled.setConsent [(jstr "t_consent", jstr "a%3D0%7Ce%3D0%7Cm%3D0%7Cts%3D1")]
        { ts := some 0 } 365 5).1.ts
    ∧ 0 < (Tangled.getConsent (Tangled.setConsent
        [(jstr "t_consent", jstr "a%3D0%7Ce%3D0%7Cm%3D0%7Cts%3D1")]
        { ts := some 0 } 365 5).2.1).ts :=
  C5_set_stays_set [(jstr "t_consent", jstr "a%3D0%7Ce%3D0%7Cm%3D0%7Cts%3D1")]
    { ts := some 0 } 365 5 (by decide) (by decide) (by decide)

/-- C6, counterexample: `setCookie` performs `document.cookie = cookie`
with no environment guard, so in an environment without a document the
evaluation raises `ReferenceError` instead of silently no-oping — refuting
the claim at this concrete call. -/
theorem C6_counterexample :
    Tangled.setCookieEnv none (jstr "x") (JsVal.str (jstr "y")) {} 0
      = Except.error JsError.referenceError := rfl

/-- C6, amended: for every name, value and options, the cookie-store set
operation in an environment without a document raises `ReferenceError`
(the environment guards exist only in the font-loader and banner-injection
code, not in `setCookie`). -/
theorem C6_amended (name : List Char) (value : JsVal) (o : Tangled.SetOptions)
    (now : Int) :
    Tangled.setCookieEnv none name value o now
      = Except.error JsError.referenceError := rfl

/-- C7, counterexample: with experiments consent on, a stored variant
cookie whose value is the empty string, and a variants list containing the
empty string, the stored value *is* a member of the list, yet the
truthiness test `if (v && variants.includes(v))` rejects it and `assignAB`
re-picks and performs a cookie write — refuting "returns the stored value
unchanged without writing" as universally stated. -/
theorem C7_counterexample :
    (Tangled.assignAB [(jstr "t_consent", jstr "a%3D0%7Ce%3D1%7Cm%3D0%7Cts%3D1"),
        (jstr "t_ab", [])] [[]] 14 0 1 5).2.2 ≠ [] := by
  decide

/-- C7, amended: with experiments consent true, (i) if the stored variant
cookie value is non-empty and a member of the supplied list, `assignAB`
returns it with no jar change and no write; (ii) if no variant cookie
exists, or the stored value is empty or not in the list, it picks a member
of the (nonempty) list at index `⌊random·length⌋`, persists it under
`t_ab` with the given expiry, and returns it. -/
theorem C7_assignAB (jar : Jar) (variants : List (List Char)) (ttl : Int)
    (rnum rden : Nat) (now : Int) :
    (∀ v, (Tangled.getConsent jar).experiments = true →
      Tangled.getCookie jar (jstr "t_ab") = some v → v ≠ [] → v ∈ variants →
      Tangled.assignAB jar variants ttl rnum rden now = (JsVal.str v, jar, []))
    ∧ ((Tangled.getConsent jar).experiments = true → rnum < rden → variants ≠ [] →
      (Tangled.getCookie jar (jstr "t_ab") = none ∨
        ∃ s, Tangled.getCookie jar (jstr "t_ab") = some s ∧ (s = [] ∨ s ∉ variants)) →
      ∃ w ∈ variants,
        Tangled.assignAB jar variants ttl rnum rden now
          = (JsVal.str w, jarSet jar (jstr "t_ab") (encURIList w),
             [jstr "t_ab=" ++ encURIList w ++ jstr "; Expires="
               ++ jsToUTCString (now + ttl * 86400000)
               ++ jstr "; Path=/; SameSite=Lax; Secure"])) := by
  constructor
  · intro v hex hv hne hmem
    exact assignAB_stable jar variants ttl rnum rden now v hex hv hne hmem
  · intro hex hr hvne hfresh
    rw [assignAB_fresh jar variants ttl rnum rden now hex hfresh, assignABPick_eq]
    have hidx := pick_lt variants rnum rden hr hvne
    obtain ⟨w, hw⟩ : ∃ w, variants[rnum * variants.length / rden]? = some w :=
      ⟨variants[rnum * variants.length / rden], List.getElem?_eq_getElem hidx⟩
    refine ⟨w, List.getElem?_mem hw, ?_⟩
    rw [hw]
    rfl

/-- C7 witness: the stable case at a concrete jar with stored variant
`"A"` and consent for experiments. -/
theorem C7_assignAB_witness :
    Tangled.assignAB [(jstr "t_consent", jstr "a%3D0%7Ce%3D1%7Cm%3D0%7Cts%3D1"),
        (jstr "t_ab", jstr "A")] [jstr "A", jstr "B"] 14 0 1 5
      = (JsVal.str (jstr "A"),
         [(jstr "t_consent", jstr "a%3D0%7Ce%3D1%7Cm%3D0%7Cts%3D1"),
          (jstr "t_ab", jstr "A")], []) :=
  (C7_assignAB [(jstr "t_consent", jstr "a%3D0%7Ce%3D1%7Cm%3D0%7Cts%3D1"),
      (jstr "t_ab", jstr "A")] [jstr "A", jstr "B"] 14 0 1 5).1
    (jstr "A") (by decide) (by decide) (by decide) (by decide)

/-- C8: for every cookie-jar string and name, the source's `getCookie`
loop returns exactly what the specification describes: the percent-decoded
remainder of the first `;`-separated, whitespace-trimmed part that starts
with the encoded name followed by `=`, and `null` (`none`) when no part
matches. -/
theorem C8_getCookie_spec (raw name : List Char) :
    Tangled.getCookieRaw raw name = getCookieSpec raw name := by
  simp only [Tangled.getCookieRaw, getCookieSpec]
  exact getCookieLoop_spec _ _

/-- C9: the two consent implementations are observationally equivalent:
`getConsent` returns equal records on every jar, and at the second file's
fixed TTL of 365 days and the same clock, `setConsent` returns equal
records, leaves equal jars, and assigns the identical cookie string. -/
theorem C9_equiv (jar : Jar) (u : ConsentUpdate) (now : Int) :
    TangledConsent.getConsent jar = Tangled.getConsent jar
    ∧ TangledConsent.setConsent jar u now = Tangled.setConsent jar u 365 now :=
  ⟨getConsent_agree jar, setConsent_agree jar u now⟩

/-- C10: with experiments consent true and an empty variants list,
`assignAB` reads `variants[0]` as `undefined`, returns `undefined`, and
persists the literal string `"undefined"` (via `String(undefined)`) to the
`t_ab` cookie — rather than refusing or leaving the jar unchanged. -/
theorem C10_assignAB_empty (jar : Jar) (ttl : Int) (rnum rden : Nat) (now : Int)
    (hg : GoodJar jar) (hex : (Tangled.getConsent jar).experiments = true) :
    Tangled.assignAB jar [] ttl rnum rden now
      = (JsVal.undef, jarSet jar (jstr "t_ab") (jstr "undefined"),
         [jstr "t_ab=undefined; Expires=" ++ jsToUTCString (now + ttl * 86400000)
           ++ jstr "; Path=/; SameSite=Lax; Secure"])
    ∧ Tangled.getCookie (Tangled.assignAB jar [] ttl rnum rden now).2.1 (jstr "t_ab")
      = some (jstr "undefined") := by
  have hfresh : Tangled.getCookie jar (jstr "t_ab") = none ∨
      ∃ s, Tangled.getCookie jar (jstr "t_ab") = some s ∧
        (s = [] ∨ s ∉ ([] : List (List Char))) := by
    cases h : Tangled.getCookie jar (jstr "t_ab") with
    | none => exact Or.inl rfl
    | some s => exact Or.inr ⟨s, rfl, Or.inr (List.not_mem_nil s)⟩
  have heq : Tangled.assignAB jar [] ttl rnum rden now
      = (JsVal.undef, jarSet jar (jstr "t_ab") (jstr "undefined"),
         [jstr "t_ab=undefined; Expires=" ++ jsToUTCString (now + ttl * 86400000)
           ++ jstr "; Path=/; SameSite=Lax; Secure"]) := by
    rw [assignAB_fresh jar [] ttl rnum rden now hex hfresh, assignABPick_eq]
    simp only [JsVal.toChars, jstr, List.append_assoc]
    simp [(by decide : encURIList ['u', 'n', 'd', 'e', 'f', 'i', 'n', 'e', 'd']
        = ['u', 'n', 'd', 'e', 'f', 'i', 'n', 'e', 'd']),
      jstr, List.append_assoc]
  refine ⟨heq, ?_⟩
  rw [heq]
  have hg2 : GoodJar (jarSet jar (jstr "t_ab") (jstr "undefined")) :=
    GoodJar_jarSet jar hg _ _ (by decide) (by decide)
  rw [getCookie_jarGet _ _ hg2,
    show encURIList (jstr "t_ab") = jstr "t_ab" from rfl, jarGet_jarSet_same]
  simp only [Option.map_some']
  rw [show decURIList (jstr "undefined") = jstr "undefined" from by decide]

/-- C10 witness: a concrete jar with experiments consent. -/
theorem C10_assignAB_empty_witness :
    Tangled.assignAB [(jstr "t_consent", jstr "a%3D0%7Ce%3D1%7Cm%3D0%7Cts%3D1")]
        [] 14 0 1 5
      = (JsVal.undef,
         [(jstr "t_consent", jstr "a%3D0%7Ce%3D1%7Cm%3D0%7Cts%3D1"),
          (jstr "t_ab", jstr "undefined")],
         [jstr "t_ab=undefined; Expires=" ++ jsToUTCString (5 + 14 * 86400000)
           ++ jstr "; Path=/; SameSite=Lax; Secure"]) :=
  (C10_assignAB_empty [(jstr "t_consent", jstr "a%3D0%7Ce%3D1%7Cm%3D0%7Cts%3D1")]
    14 0 1 5 (by decide) (by decide)).1
